import Mathlib

set_option maxHeartbeats 1000000

namespace Visualization

/-- JSON values as loaded by the Python backend. Numbers are modeled as
integers (the repository's documents use no fractional numbers and no claim
depends on floating-point behaviour). Objects keep the insertion order of
their fields, matching Python dicts. -/
inductive Json where
  | null : Json
  | bool : Bool → Json
  | num : Int → Json
  | str : String → Json
  | arr : List Json → Json
  | obj : List (String × Json) → Json

mutual

/-- Structural equality of JSON values (Python `==` on parsed documents). -/
def beqJson : Json → Json → Bool
  | .null, .null => true
  | .bool a, .bool b => a == b
  | .num a, .num b => a == b
  | .str a, .str b => a == b
  | .arr a, .arr b => beqJsonList a b
  | .obj a, .obj b => beqJsonFields a b
  | _, _ => false

def beqJsonList : List Json → List Json → Bool
  | [], [] => true
  | a :: as, b :: bs => beqJson a b && beqJsonList as bs
  | _, _ => false

def beqJsonFields : List (String × Json) → List (String × Json) → Bool
  | [], [] => true
  | a :: as, b :: bs => (a.1 == b.1 && beqJson a.2 b.2) && beqJsonFields as bs
  | _, _ => false

end

instance : BEq Json := ⟨beqJson⟩

/-- Python `isinstance(x, dict)`. -/
def isDict : Json → Bool
  | .obj _ => true
  | _ => false

/-- Python truthiness of a JSON value (`bool(x)`). -/
def pyTruthy : Json → Bool
  | .null => false
  | .bool b => b
  | .num n => n != 0
  | .str s => s != ""
  | .arr xs => !xs.isEmpty
  | .obj fs => !fs.isEmpty

/-- Whether a JSON value is hashable in Python (usable as a dict key or a
set element): lists and dicts are not. -/
def isHashable : Json → Bool
  | .arr _ => false
  | .obj _ => false
  | _ => true

/-- First value stored under key `k` when `j` is an object, else `none`
(Python `d.get(k)` on a dict, `None` default). -/
def jget? (j : Json) (k : String) : Option Json :=
  match j with
  | .obj fs => (fs.find? (fun p => p.1 == k)).map (fun p => p.2)
  | _ => none

/-- Python `d.get(k, default)` for a dict. -/
def pyGetD (j : Json) (k : String) (d : Json) : Json := (jget? j k).getD d

/-- Python subscription `j[k]` with a string key: `KeyError` on a dict
missing the key, `TypeError` on any non-dict. -/
def pySubscript (j : Json) (k : String) : Except String Json :=
  match j with
  | .obj _ =>
    match jget? j k with
    | some v => .ok v
    | none => .error ("KeyError: " ++ k)
  | _ => .error "TypeError: value is not subscriptable by a string"

def leadsB : List Char → List Char → Bool
  | [], _ => true
  | _ :: _, [] => false
  | a :: as, b :: bs => a == b && leadsB as bs

def substrB : List Char → List Char → Bool
  | n, [] => leadsB n []
  | n, h :: t => leadsB n (h :: t) || substrB n t

/-- Python `k in j` for a string `k`: key test on dicts, membership on
lists, substring test on strings, `TypeError` otherwise. -/
def pyContains (j : Json) (k : String) : Except String Bool :=
  match j with
  | .obj fs => .ok (fs.any (fun p => p.1 == k))
  | .arr xs => .ok (xs.any (fun x => x == .str k))
  | .str s => .ok (substrB k.data s.data)
  | _ => .error "TypeError: argument is not iterable"

/-- Python iteration `for x in j`: lists yield elements, dicts yield keys,
strings yield one-character strings, other values raise `TypeError`. -/
def pyIter (j : Json) : Except String (List Json) :=
  match j with
  | .arr xs => .ok xs
  | .obj fs => .ok (fs.map (fun p => Json.str p.1))
  | .str s => .ok (s.data.map (fun c => Json.str (String.singleton c)))
  | _ => .error "TypeError: value is not iterable"

mutual

/-- Python `repr` of a JSON value (string escaping inside nested reprs is
simplified; no claim depends on it). -/
def pyRepr : Json → String
  | .null => "None"
  | .bool true => "True"
  | .bool false => "False"
  | .num n => toString n
  | .str s => "'" ++ s ++ "'"
  | .arr xs => "[" ++ pyReprList xs ++ "]"
  | .obj fs => "\x7b" ++ pyReprFields fs ++ "\x7d"

def pyReprList : List Json → String
  | [] => ""
  | [x] => pyRepr x
  | x :: y :: t => pyRepr x ++ ", " ++ pyReprList (y :: t)

def pyReprFields : List (String × Json) → String
  | [] => ""
  | [p] => "'" ++ p.1 ++ "': " ++ pyRepr p.2
  | p :: q :: t => "'" ++ p.1 ++ "': " ++ pyRepr p.2 ++ ", " ++ pyReprFields (q :: t)

end

/-- Python `str` of a JSON value, as used by f-string interpolation. -/
def pyStr (j : Json) : String :=
  match j with
  | .str s => s
  | _ => pyRepr j

/-- Boolean membership in a list of JSON values. -/
def memB (x : Json) (l : List Json) : Bool := l.any (fun y => y == x)

/-- A flattened graph node as emitted by `build_graph_data`. -/
structure GraphNode where
  id : Json
  name : Json
  type : String
  description : Json
  parent : Option Json
  level : Nat
  expandable : Bool
  has_children : Bool

/-- A directed edge of the flattened graph. -/
structure GraphEdge where
  source : Json
  target : Json
  type : String

/-- The builder state: the `nodes` and `links` lists of `build_graph_data`. -/
structure GD where
  nodes : List GraphNode
  links : List GraphEdge

def ids (l : List GraphNode) : List Json := l.map (fun n => n.id)

/-- Append a node to `nodes` and record it in `node_map`; the `node_map`
assignment raises `TypeError` when the id is unhashable. -/
def addNode (g : GD) (n : GraphNode) : Except String GD :=
  if isHashable n.id then .ok ⟨g.nodes ++ [n], g.links⟩
  else .error "TypeError: unhashable type"

def addLink (g : GD) (s t : Json) (ty : String) : GD :=
  ⟨g.nodes, g.links ++ [⟨s, t, ty⟩]⟩

/-- Python `x not in keys` for a hashed collection: raises `TypeError` when
`x` is unhashable. -/
def pyNotIn (x : Json) (seen : List Json) : Except String Bool :=
  if isHashable x then .ok (!memB x seen) else .error "TypeError: unhashable type"

/-- Monadic left fold used for the builder's nested `for` loops. -/
def foldM (f : GD → α → Except String GD) (g : GD) : List α → Except String GD
  | [] => .ok g
  | x :: xs => do
    let g₁ ← f g x
    foldM f g₁ xs

/-- The `{parent}-{role}-{counter}` synthesized-id scheme. -/
def synth (base : String) (role : String) (n : Nat) : String :=
  base ++ "-" ++ role ++ "-" ++ toString n

/-- The contribution of one input fragment to the nested-outputs list
(app.py lines 442-447): a dict input with an `outputs` key contributes the
list itself (list form) or the single object (object form). -/
def inputNested (it : Json) : List Json :=
  match it with
  | .obj fs =>
    if fs.any (fun p => p.1 == "outputs") then
      match pyGetD it "outputs" (.arr []) with
      | .arr xs => xs
      | .obj gs => [Json.obj gs]
      | _ => []
    else []
  | _ => []

/-- The loop of app.py lines 441-447: collect `outputs` found nested inside
the input fragments, in input order. -/
def nestedOutputsOf : List Json → List Json
  | [] => []
  | it :: rest => inputNested it ++ nestedOutputsOf rest

/-- The `output.get("id")` value used for deduplication (`None` if absent). -/
def idVal (o : Json) : Json := pyGetD o "id" .null

/-- The dedup loop of app.py lines 453-465: keep the first occurrence of
each truthy id, keep every entry with a falsy id, and skip non-dicts; an
unhashable truthy id raises `TypeError` at the set-membership test. -/
def uniqueOutputsGo (seen : List Json) : List Json → Except String (List Json)
  | [] => .ok []
  | o :: rest =>
    match o with
    | .obj _ =>
      if pyTruthy (idVal o) then do
        let fresh ← pyNotIn (idVal o) seen
        if fresh then do
          let tl ← uniqueOutputsGo (idVal o :: seen) rest
          .ok (o :: tl)
        else uniqueOutputsGo seen rest
      else do
        let tl ← uniqueOutputsGo seen rest
        .ok (o :: tl)
    | _ => uniqueOutputsGo seen rest

/-- The id chosen for an output node at emission time (app.py lines
520-524): the fragment's own id when present and truthy, else
`{app_id}-output-{index}` with the output's index in this application's
deduplicated output list. -/
def outputIdOf (appId : Json) (idx : Nat) (o : Json) : Json :=
  match jget? o "id" with
  | some v => if pyTruthy v then v else .str (synth (pyStr appId) "output" idx)
  | none => .str (synth (pyStr appId) "output" idx)

/-- Emission of one output fragment (app.py lines 516-546): the node and
its `has_output` edge are added only when the id is not already a key of
the global `node_map`. -/
def outputStep (appId : Json) (g : GD) (p : Nat × Json) : Except String GD :=
  match p.2 with
  | .obj _ =>
    let oid := outputIdOf appId p.1 p.2
    let node : GraphNode :=
      { id := oid, name := pyGetD p.2 "name" (.str ("Output " ++ toString (p.1 + 1))),
        type := "output", description := pyGetD p.2 "description" (.str ""),
        parent := some appId, level := 9, expandable := false, has_children := false }
    do
      let fresh ← pyNotIn oid (ids g.nodes)
      if fresh then do
        let g₁ ← addNode g node
        .ok (addLink g₁ appId oid "has_output")
      else .ok g
  | _ => .ok g

/-- Emission of one input fragment (app.py lines 489-513). -/
def inputStep (appId : Json) (g : GD) (it : Json) : Except String GD :=
  match it with
  | .obj _ =>
    let iid := pyGetD it "id" (.str (synth (pyStr appId) "input" g.nodes.length))
    let node : GraphNode :=
      { id := iid, name := pyGetD it "name" (.str "Input"), type := "input",
        description := pyGetD it "description" (.str ""), parent := some appId,
        level := 9, expandable := false, has_children := false }
    do
      let g₁ ← addNode g node
      .ok (addLink g₁ appId iid "has_input")
  | _ => .ok g

/-- Emission of one application fragment and its inputs/outputs (app.py
lines 429-546). -/
def appStep (techniqueId : Json) (g : GD) (app : Json) : Except String GD :=
  match app with
  | .obj _ => do
    let appId := pyGetD app "id" (.str (synth (pyStr techniqueId) "app" g.nodes.length))
    let inputsJ := pyGetD app "inputs" (.arr [])
    let standalone := pyGetD app "outputs" (.arr [])
    let inputsL ← pyIter inputsJ
    let nested := nestedOutputsOf inputsL
    let concat ←
      match standalone with
      | .arr xs => .ok (xs ++ nested)
      | _ => Except.error "TypeError: can only concatenate list"
    let outs ← uniqueOutputsGo [] concat
    let hasCh := pyTruthy inputsJ || !outs.isEmpty
    let node : GraphNode :=
      { id := appId, name := pyGetD app "name" (.str "Application"), type := "application",
        description := pyGetD app "description" (.str ""), parent := some techniqueId,
        level := 8, expandable := hasCh, has_children := hasCh }
    let g₁ ← addNode g node
    let g₂ := addLink g₁ techniqueId appId "has_application"
    let g₃ ← foldM (inputStep appId) g₂ inputsL
    foldM (outputStep appId) g₃ outs.enum
  | _ => .ok g

/-- Emission of one technique fragment (app.py lines 400-426). -/
def techStep (integrationId : Json) (g : GD) (tech : Json) : Except String GD :=
  match tech with
  | .obj _ => do
    let tid := pyGetD tech "id" (.str (synth (pyStr integrationId) "technique" g.nodes.length))
    let apps := pyGetD tech "applications" (.arr [])
    let hasCh := pyTruthy apps
    let node : GraphNode :=
      { id := tid, name := pyGetD tech "name" (.str "Technique"), type := "technique",
        description := pyGetD tech "description" (.str ""), parent := some integrationId,
        level := 7, expandable := hasCh, has_children := hasCh }
    let g₁ ← addNode g node
    let g₂ := addLink g₁ integrationId tid "has_technique"
    let appsL ← pyIter apps
    foldM (appStep tid) g₂ appsL
  | _ => .ok g

/-- Emission of one specification fragment and its optional singular
integration object (app.py lines 345-397). -/
def specStep (functionId : Json) (g : GD) (sp : Json) : Except String GD :=
  match sp with
  | .obj _ => do
    let sid := pyGetD sp "id" (.str (synth (pyStr functionId) "spec" g.nodes.length))
    let integ? := jget? sp "integration"
    let hasCh := match integ? with | some v => pyTruthy v | none => false
    let node : GraphNode :=
      { id := sid, name := pyGetD sp "name" (.str "Specification"), type := "specification",
        description := pyGetD sp "description" (.str ""), parent := some functionId,
        level := 5, expandable := hasCh, has_children := hasCh }
    let g₁ ← addNode g node
    let g₂ := addLink g₁ functionId sid "has_specification"
    match integ? with
    | some integ =>
      if pyTruthy integ && isDict integ then do
        let iid := pyGetD integ "id" (.str (synth (pyStr sid) "integration" g₂.nodes.length))
        let techs := pyGetD integ "techniques" (.arr [])
        let hasICh := pyTruthy techs
        let inode : GraphNode :=
          { id := iid, name := pyGetD integ "name" (.str "Integration"), type := "integration",
            description := pyGetD integ "description" (.str ""), parent := some sid,
            level := 6, expandable := hasICh, has_children := hasICh }
        let g₃ ← addNode g₂ inode
        let g₄ := addLink g₃ sid iid "has_integration"
        let techsL ← pyIter techs
        foldM (techStep iid) g₄ techsL
      else .ok g₂
    | none => .ok g₂
  | _ => .ok g

/-- Emission of one function fragment (app.py lines 316-342). -/
def funcStep (capabilityId : Json) (g : GD) (f : Json) : Except String GD :=
  match f with
  | .obj _ => do
    let fid := pyGetD f "id" (.str (synth (pyStr capabilityId) "function" g.nodes.length))
    let specs := pyGetD f "specifications" (.arr [])
    let hasCh := pyTruthy specs
    let node : GraphNode :=
      { id := fid, name := pyGetD f "name" (.str "Function"), type := "function",
        description := pyGetD f "description" (.str ""), parent := some capabilityId,
        level := 4, expandable := hasCh, has_children := hasCh }
    let g₁ ← addNode g node
    let g₂ := addLink g₁ capabilityId fid "has_function"
    let specsL ← pyIter specs
    foldM (specStep fid) g₂ specsL
  | _ => .ok g

/-- Emission of one capability fragment (app.py lines 287-313). -/
def capStep (subcompId : String) (g : GD) (c : Json) : Except String GD :=
  match c with
  | .obj _ => do
    let cid := pyGetD c "id" (.str (synth subcompId "capability" g.nodes.length))
    let funcs := pyGetD c "functions" (.arr [])
    let hasCh := pyTruthy funcs
    let node : GraphNode :=
      { id := cid, name := pyGetD c "name" (.str "Capability"), type := "capability",
        description := pyGetD c "description" (.str ""), parent := some (Json.str subcompId),
        level := 3, expandable := hasCh, has_children := hasCh }
    let g₁ ← addNode g node
    let g₂ := addLink g₁ (.str subcompId) cid "has_capability"
    let funcsL ← pyIter funcs
    foldM (funcStep cid) g₂ funcsL
  | _ => .ok g

/-- Normalization of a subcomponent's `capabilities` field in the builder
(app.py lines 258-263): accept a list, or an object's `items` field;
anything else is treated as the initial empty list. -/
def extractCaps (subcomp : Json) : Json :=
  match jget? subcomp "capabilities" with
  | some (.arr xs) => .arr xs
  | some (.obj fs) =>
    match jget? (.obj fs) "items" with
    | some v => v
    | none => .arr []
  | _ => .arr []

/-- Emission of one attached subcomponent (app.py lines 257-313). -/
def subcompStep (componentId : String) (g : GD) (p : String × Json) : Except String GD := do
  let caps := extractCaps p.2
  let hasCh := pyTruthy caps
  let node : GraphNode :=
    { id := Json.str p.1, name := pyGetD p.2 "name" (.str p.1), type := "subcomponent",
      description := pyGetD p.2 "description" (.str ""), parent := some (Json.str componentId),
      level := 2, expandable := hasCh, has_children := hasCh }
  let g₁ ← addNode g node
  let g₂ := addLink g₁ (.str componentId) (.str p.1) "contains"
  let capsL ← pyIter caps
  foldM (capStep p.1) g₂ capsL

/-- The dict comprehension of app.py lines 232-233: the subcomponents whose
`parent` field equals this component's id (Python `in` and subscription
semantics, so a malformed entry can raise). -/
def filterSubsFor (cid : String) : List (String × Json) → Except String (List (String × Json))
  | [] => .ok []
  | p :: rest => do
    let b ← pyContains p.2 "parent"
    let keep ←
      if b then do
        let v ← pySubscript p.2 "parent"
        Except.ok (v == Json.str cid)
      else Except.ok false
    let tl ← filterSubsFor cid rest
    .ok (if keep then p :: tl else tl)

/-- Emission of one component and its attached subcomponents (app.py lines
230-313); `component["name"]` is a direct subscription and can raise. -/
def componentStep (subs : List (String × Json)) (rootId : Json) (g : GD)
    (p : String × Json) : Except String GD := do
  let csubs ← filterSubsFor p.1 subs
  let hasCh := !csubs.isEmpty
  let cname ← pySubscript p.2 "name"
  let node : GraphNode :=
    { id := Json.str p.1, name := cname, type := "component",
      description := pyGetD p.2 "description" (.str ""), parent := some rootId,
      level := 1, expandable := hasCh, has_children := hasCh }
  let g₁ ← addNode g node
  let g₂ := addLink g₁ rootId (.str p.1) "contains"
  foldM (subcompStep p.1) g₂ csubs

/-- The graph builder `build_graph_data` (app.py lines 204-549) as a pure
function of the root document and the two id-keyed mappings; Python
exceptions become `Except.error`. The root node's `expandable` is the
literal `True` of line 223 and its `has_children` is `bool(components)`. -/
def build_graph_data (root : Json) (comps subs : List (String × Json)) :
    Except String GD := do
  let rid ← pySubscript root "id"
  let rname ← pySubscript root "name"
  let rdesc ← pySubscript root "description"
  let rootNode : GraphNode :=
    { id := rid, name := rname, type := "component_group", description := rdesc,
      parent := none, level := 0, expandable := true, has_children := !comps.isEmpty }
  let g₁ ← addNode ⟨[], []⟩ rootNode
  foldM (componentStep subs rid) g₁ comps

/-- The hardcoded fallback root document `DEFAULT_ROOT_DATA`
(node_details_helper.py lines 295-322, identical in app.py lines 780-807). -/
def DEFAULT_ROOT_DATA : Json := .obj
  [ ("id", .str "ai-alignment"),
    ("name", .str "AI Alignment"),
    ("description", .str "Methods to ensure AI systems remain aligned with human values and intentions."),
    ("type", .str "component_group"),
    ("components", .arr
      [ .obj [ ("id", .str "technical-safeguards"),
               ("name", .str "Technical Safeguards"),
               ("description", .str "Engineering approaches to ensure AI systems behave as intended") ],
        .obj [ ("id", .str "value-learning"),
               ("name", .str "Value Learning"),
               ("description", .str "Systems that enable AI to learn and internalize human values") ],
        .obj [ ("id", .str "interpretability-tools"),
               ("name", .str "Interpretability Tools"),
               ("description", .str "Methods to understand AI reasoning and decision-making") ],
        .obj [ ("id", .str "oversight-mechanisms"),
               ("name", .str "Oversight Mechanisms"),
               ("description", .str "Systems for monitoring and evaluating AI behavior") ] ]) ]

/-- The root loader `get_root_data` (node_details_helper.py lines 93-100):
the file/encoding/JSON layer is the external collaborator, summarized as its
outcome - `none` for any load failure, `some j` for a parsed document.
Falsy loads (including failures) fall back to `DEFAULT_ROOT_DATA`; the
function is total, so it never raises to its caller. -/
def get_root_data (loaded : Option Json) : Json :=
  match loaded with
  | some j => if pyTruthy j then j else DEFAULT_ROOT_DATA
  | none => DEFAULT_ROOT_DATA

/-- The filename-id injection of `get_subcomponents` (node_details_helper.py
lines 146-147): `if "id" not in data: data["id"] = subcomponent_id`. Item
assignment on a non-dict raises `TypeError`. -/
def injectId (fid : String) (data : Json) : Except String Json := do
  let b ← pyContains data "id"
  if b then .ok data
  else
    match data with
    | .obj fs => .ok (.obj (fs ++ [("id", .str fid)]))
    | _ => .error "TypeError: object does not support item assignment"

/-- The subcomponent batch loader `get_subcomponents` (node_details_helper.py
lines 128-153). Each file is given by its filename-derived id and its load
outcome (`none` = load failure). Failed or falsy loads are skipped; a load
whose id injection raises aborts the whole batch. -/
def get_subcomponents : List (String × Option Json) →
    Except String (List (String × Json))
  | [] => .ok []
  | (fid, r) :: rest =>
    match r with
    | some data =>
      if pyTruthy data then do
        let d ← injectId fid data
        let tl ← get_subcomponents rest
        .ok ((fid, d) :: tl)
      else get_subcomponents rest
    | none => get_subcomponents rest

/-- The app.py variant of `get_subcomponents` (lines 595-627): the whole
batch is wrapped in `try/except` and any exception yields an empty mapping. -/
def get_subcomponents_app (files : List (String × Option Json)) : List (String × Json) :=
  match get_subcomponents files with
  | .ok m => m
  | .error _ => []

/-- First-match search over a list, where examining one element may raise. -/
def firstSomeM (f : α → Except String (Option Json)) : List α → Except String (Option Json)
  | [] => .ok none
  | x :: rest => do
    let r ← f x
    match r with
    | some v => .ok (some v)
    | none => firstSomeM f rest

/-- The id comparison `fragment.get('id') == node_id` of the nested search. -/
def idMatches (f : Json) (nid : String) : Bool :=
  match jget? f "id" with
  | some v => v == Json.str nid
  | none => false

/-- Search of an application's `inputs` then `outputs` lists
(node_details_helper.py lines 221-226); only the io items' own ids are
compared - outputs nested inside an input fragment are never examined. -/
def searchIOs (nid : String) (app : Json) : Except String (Option Json) := do
  let l₁ ← pyIter (pyGetD app "inputs" (.arr []))
  match l₁.find? (fun io => isDict io && idMatches io nid) with
  | some x => .ok (some x)
  | none => do
    let l₂ ← pyIter (pyGetD app "outputs" (.arr []))
    .ok (l₂.find? (fun io => isDict io && idMatches io nid))

/-- Search of one application fragment (node_details_helper.py lines 213-226). -/
def searchApp (nid : String) (app : Json) : Except String (Option Json) :=
  if !isDict app then .ok none
  else if idMatches app nid then .ok (some app)
  else searchIOs nid app

/-- Search of one technique fragment (node_details_helper.py lines 204-226). -/
def searchTechnique (nid : String) (tech : Json) : Except String (Option Json) :=
  if !isDict tech then .ok none
  else if idMatches tech nid then .ok (some tech)
  else do
    let l ← pyIter (pyGetD tech "applications" (.arr []))
    firstSomeM (searchApp nid) l

/-- Search of a truthy dict integration object (node_details_helper.py
lines 197-226). -/
def searchIntegration (nid : String) (integ : Json) : Except String (Option Json) :=
  if idMatches integ nid then .ok (some integ)
  else do
    let l ← pyIter (pyGetD integ "techniques" (.arr []))
    firstSomeM (searchTechnique nid) l

/-- Search of one specification fragment (node_details_helper.py lines
188-226). -/
def searchSpec (nid : String) (sp : Json) : Except String (Option Json) :=
  if !isDict sp then .ok none
  else if idMatches sp nid then .ok (some sp)
  else
    match jget? sp "integration" with
    | some integ =>
      if pyTruthy integ && isDict integ then searchIntegration nid integ
      else .ok none
    | none => .ok none

/-- Search of one function fragment (node_details_helper.py lines 179-226). -/
def searchFunction (nid : String) (f : Json) : Except String (Option Json) :=
  if !isDict f then .ok none
  else if idMatches f nid then .ok (some f)
  else do
    let l ← pyIter (pyGetD f "specifications" (.arr []))
    firstSomeM (searchSpec nid) l

/-- Search of one capability fragment (node_details_helper.py lines 170-226). -/
def searchCapability (nid : String) (c : Json) : Except String (Option Json) :=
  if !isDict c then .ok none
  else if idMatches c nid then .ok (some c)
  else do
    let l ← pyIter (pyGetD c "functions" (.arr []))
    firstSomeM (searchFunction nid) l

/-- Search of one subcomponent's capability tree (node_details_helper.py
lines 157-168): capabilities may be a list or an object's `items`; any
other normalized shape skips this subcomponent. -/
def searchSubcomp (nid : String) (p : String × Json) : Except String (Option Json) :=
  if !isDict p.2 then .ok none
  else
    match jget? p.2 "capabilities" with
    | none => .ok none
    | some capsRaw =>
      let caps := match capsRaw with
        | .obj fs => pyGetD (.obj fs) "items" (.arr [])
        | v => v
      match caps with
      | .arr xs => firstSomeM (searchCapability nid) xs
      | _ => .ok none

/-- The nested-structure search `find_nested_node` (node_details_helper.py
lines 155-228). -/
def find_nested_node (nid : String) (subs : List (String × Json)) :
    Except String (Option Json) :=
  firstSomeM (searchSubcomp nid) subs

/-- Association-list lookup modelling Python dict indexing by key. -/
def alookup (l : List (String × Json)) (k : String) : Option Json :=
  (l.find? (fun p => p.1 == k)).map (fun p => p.2)

/-- The 404 body of `get_node_details` (node_details_helper.py lines 286-292). -/
def notFoundDoc (nid : String) : Json := .obj
  [ ("error", .str ("Node not found: " ++ nid)),
    ("id", .str nid),
    ("name", .str "Unknown Node"),
    ("description", .str "Node details not found"),
    ("type", .str "unknown") ]

/-- The 500 body for an unloadable root (node_details_helper.py lines 237-243). -/
def errLoadDoc (nid : String) : Json := .obj
  [ ("error", .str "Could not load root data"),
    ("id", .str nid),
    ("name", .str "Error Loading Node"),
    ("description", .str "Could not load root data"),
    ("type", .str "error") ]

def pyTypeName : Json → String
  | .null => "<class 'NoneType'>"
  | .bool _ => "<class 'bool'>"
  | .num _ => "<class 'int'>"
  | .str _ => "<class 'str'>"
  | .arr _ => "<class 'list'>"
  | .obj _ => "<class 'dict'>"

/-- The 500 body for a non-dict subcomponent value (node_details_helper.py
lines 263-277). -/
def errSubDoc (nid : String) (v : Json) : Json := .obj
  [ ("error", .str ("Error processing subcomponent data: Invalid subcomponent data type: "
       ++ pyTypeName v)),
    ("id", .str nid),
    ("name", .str "Error Processing Node"),
    ("description", .str "Could not process subcomponent data"),
    ("type", .str "error") ]

/-- The node resolver `get_node_details` (node_details_helper.py lines
230-292) as a pure function of the loaded root document and the two
mappings; it returns the response body and HTTP status, and uncaught Python
exceptions become `Except.error`. -/
def get_node_details (nid : String) (root : Json) (comps subs : List (String × Json)) :
    Except String (Json × Nat) :=
  if !pyTruthy root then .ok (errLoadDoc nid, 500)
  else do
    let isRoot ←
      if nid == "ai-alignment" then Except.ok true
      else do
        let rid ← pySubscript root "id"
        Except.ok (rid == Json.str nid)
    if isRoot then .ok (root, 200)
    else
      match alookup comps nid with
      | some c => .ok (c, 200)
      | none =>
        match alookup subs nid with
        | some v => if isDict v then .ok (v, 200) else .ok (errSubDoc nid v, 500)
        | none => do
          let r ← find_nested_node nid subs
          match r with
          | some f => if pyTruthy f then .ok (f, 200) else .ok (notFoundDoc nid, 404)
          | none => .ok (notFoundDoc nid, 404)

mutual

theorem beqJson_refl : ∀ a : Json, beqJson a a = true
  | .null => rfl
  | .bool b => by simp [beqJson]
  | .num n => by simp [beqJson]
  | .str s => by simp [beqJson]
  | .arr xs => by simp [beqJson, beqJsonList_refl xs]
  | .obj fs => by simp [beqJson, beqJsonFields_refl fs]

theorem beqJsonList_refl : ∀ l : List Json, beqJsonList l l = true
  | [] => rfl
  | x :: xs => by simp [beqJsonList, beqJson_refl x, beqJsonList_refl xs]

theorem beqJsonFields_refl : ∀ l : List (String × Json), beqJsonFields l l = true
  | [] => rfl
  | p :: ps => by simp [beqJsonFields, beqJson_refl p.2, beqJsonFields_refl ps]

end

mutual

theorem beqJson_eq : ∀ a b : Json, beqJson a b = true → a = b
  | .null, .null, _ => rfl
  | .null, .bool _, h => Bool.noConfusion h
  | .null, .num _, h => Bool.noConfusion h
  | .null, .str _, h => Bool.noConfusion h
  | .null, .arr _, h => Bool.noConfusion h
  | .null, .obj _, h => Bool.noConfusion h
  | .bool _, .null, h => Bool.noConfusion h
  | .bool x, .bool y, h => by
    have e : x = y := by simpa [beqJson] using h
    rw [e]
  | .bool _, .num _, h => Bool.noConfusion h
  | .bool _, .str _, h => Bool.noConfusion h
  | .bool _, .arr _, h => Bool.noConfusion h
  | .bool _, .obj _, h => Bool.noConfusion h
  | .num _, .null, h => Bool.noConfusion h
  | .num _, .bool _, h => Bool.noConfusion h
  | .num x, .num y, h => by
    have e : x = y := by simpa [beqJson] using h
    rw [e]
  | .num _, .str _, h => Bool.noConfusion h
  | .num _, .arr _, h => Bool.noConfusion h
  | .num _, .obj _, h => Bool.noConfusion h
  | .str _, .null, h => Bool.noConfusion h
  | .str _, .bool _, h => Bool.noConfusion h
  | .str _, .num _, h => Bool.noConfusion h
  | .str x, .str y, h => by
    have e : x = y := by simpa [beqJson] using h
    rw [e]
  | .str _, .arr _, h => Bool.noConfusion h
  | .str _, .obj _, h => Bool.noConfusion h
  | .arr _, .null, h => Bool.noConfusion h
  | .arr _, .bool _, h => Bool.noConfusion h
  | .arr _, .num _, h => Bool.noConfusion h
  | .arr _, .str _, h => Bool.noConfusion h
  | .arr xs, .arr ys, h => by
    have e : xs = ys := beqJsonList_eq xs ys (by simpa [beqJson] using h)
    rw [e]
  | .arr _, .obj _, h => Bool.noConfusion h
  | .obj _, .null, h => Bool.noConfusion h
  | .obj _, .bool _, h => Bool.noConfusion h
  | .obj _, .num _, h => Bool.noConfusion h
  | .obj _, .str _, h => Bool.noConfusion h
  | .obj _, .arr _, h => Bool.noConfusion h
  | .obj fs, .obj gs, h => by
    have e : fs = gs := beqJsonFields_eq fs gs (by simpa [beqJson] using h)
    rw [e]

theorem beqJsonList_eq : ∀ a b : List Json, beqJsonList a b = true → a = b
  | [], [], _ => rfl
  | [], _ :: _, h => Bool.noConfusion h
  | _ :: _, [], h => Bool.noConfusion h
  | x :: xs, y :: ys, h => by
    have h1 : beqJson x y = true ∧ beqJsonList xs ys = true := by
      simpa [beqJsonList, Bool.and_eq_true] using h
    rw [beqJson_eq x y h1.1, beqJsonList_eq xs ys h1.2]

theorem beqJsonFields_eq : ∀ a b : List (String × Json), beqJsonFields a b = true → a = b
  | [], [], _ => rfl
  | [], _ :: _, h => Bool.noConfusion h
  | _ :: _, [], h => Bool.noConfusion h
  | p :: ps, q :: qs, h => by
    have h1 : ((p.1 == q.1) = true ∧ beqJson p.2 q.2 = true) ∧ beqJsonFields ps qs = true := by
      simpa [beqJsonFields, Bool.and_eq_true] using h
    have e1 : p.1 = q.1 := by simpa using h1.1.1
    have e2 : p.2 = q.2 := beqJson_eq p.2 q.2 h1.1.2
    have e3 : ps = qs := beqJsonFields_eq ps qs h1.2
    have ep : p = q := Prod.ext e1 e2
    rw [ep, e3]

end

instance : LawfulBEq Json where
  eq_of_beq h := beqJson_eq _ _ h
  rfl := beqJson_refl _

theorem memB_iff {x : Json} {l : List Json} : memB x l = true ↔ x ∈ l := by
  simp [memB, List.any_eq_true, beq_iff_eq]

theorem memB_congr {s t : List Json} (h : ∀ y, y ∈ s ↔ y ∈ t) (x : Json) :
    memB x s = memB x t := by
  rw [Bool.eq_iff_iff, memB_iff, memB_iff]
  exact h x

theorem memB_append {x : Json} {a b : List Json} :
    memB x (a ++ b) = (memB x a || memB x b) := by
  simp [memB, List.any_append]

/-- Each node's `parent`, when present, names an id that occurs among the
nodes emitted before it (`seen` collects the ids of earlier nodes). -/
def parentsOkAux (seen : List Json) : List GraphNode → Bool
  | [] => true
  | n :: rest =>
    (match n.parent with
     | none => true
     | some p => memB p seen) && parentsOkAux (n.id :: seen) rest

/-- Every node of type `output` carries an id distinct from the ids of all
nodes emitted before it. -/
def outFreshAux (seen : List Json) : List GraphNode → Bool
  | [] => true
  | n :: rest =>
    (if n.type == "output" then !memB n.id seen else true) && outFreshAux (n.id :: seen) rest

theorem parentsOkAux_congr : ∀ (l : List GraphNode) (s t : List Json),
    (∀ y, y ∈ s ↔ y ∈ t) → parentsOkAux s l = parentsOkAux t l
  | [], _, _, _ => rfl
  | n :: rest, s, t, h => by
    have ih := parentsOkAux_congr rest (n.id :: s) (n.id :: t)
      (by intro y; simp [List.mem_cons, h y])
    cases hp : n.parent with
    | none => simp [parentsOkAux, hp, ih]
    | some p => simp [parentsOkAux, hp, ih, memB_congr h p]

theorem outFreshAux_congr : ∀ (l : List GraphNode) (s t : List Json),
    (∀ y, y ∈ s ↔ y ∈ t) → outFreshAux s l = outFreshAux t l
  | [], _, _, _ => rfl
  | n :: rest, s, t, h => by
    have ih := outFreshAux_congr rest (n.id :: s) (n.id :: t)
      (by intro y; simp [List.mem_cons, h y])
    simp [outFreshAux, ih, memB_congr h n.id]

theorem ids_append {a b : List GraphNode} : ids (a ++ b) = ids a ++ ids b := by
  simp [ids]

theorem parentsOkAux_append : ∀ (a b : List GraphNode) (s : List Json),
    parentsOkAux s (a ++ b) = (parentsOkAux s a && parentsOkAux (ids a ++ s) b)
  | [], b, s => by simp [parentsOkAux, ids]
  | n :: a, b, s => by
    have ih := parentsOkAux_append a b (n.id :: s)
    have hc : parentsOkAux (ids a ++ n.id :: s) b = parentsOkAux (ids (n :: a) ++ s) b := by
      apply parentsOkAux_congr
      intro y
      have e : ids (n :: a) = n.id :: ids a := rfl
      rw [e]
      simp [List.mem_append, List.mem_cons]
      tauto
    simp only [List.cons_append, parentsOkAux, List.append_eq, ih, hc, Bool.and_assoc]

theorem outFreshAux_append : ∀ (a b : List GraphNode) (s : List Json),
    outFreshAux s (a ++ b) = (outFreshAux s a && outFreshAux (ids a ++ s) b)
  | [], b, s => by simp [outFreshAux, ids]
  | n :: a, b, s => by
    have ih := outFreshAux_append a b (n.id :: s)
    have hc : outFreshAux (ids a ++ n.id :: s) b = outFreshAux (ids (n :: a) ++ s) b := by
      apply outFreshAux_congr
      intro y
      have e : ids (n :: a) = n.id :: ids a := rfl
      rw [e]
      simp [List.mem_append, List.mem_cons]
      tauto
    simp only [List.cons_append, outFreshAux, List.append_eq, ih, hc, Bool.and_assoc]

/-- The shape of any builder step relative to its hierarchical parent id
`pid`: nodes are only appended, every appended node has a parent and equal
`has_children`/`expandable` flags, appended parents resolve to earlier ids
once `pid` itself does, and appended output nodes have ids fresh for the
whole preceding node list. -/
def Ext (pid : Json) (g g₂ : GD) : Prop :=
  ∃ Δ, g₂.nodes = g.nodes ++ Δ
    ∧ (∀ n ∈ Δ, n.parent.isSome = true ∧ n.has_children = n.expandable)
    ∧ (pid ∈ ids g.nodes → parentsOkAux (ids g.nodes) Δ = true)
    ∧ outFreshAux (ids g.nodes) Δ = true

theorem ext_of_nodes_eq {pid : Json} {g g₂ : GD} (h : g₂.nodes = g.nodes) :
    Ext pid g g₂ :=
  ⟨[], by simp [h], by simp, fun _ => rfl, rfl⟩

theorem ext_trans {pid : Json} {g₁ g₂ g₃ : GD} (h₁ : Ext pid g₁ g₂)
    (h₂ : Ext pid g₂ g₃) : Ext pid g₁ g₃ := by
  obtain ⟨d₁, e₁, hp₁, hpar₁, hf₁⟩ := h₁
  obtain ⟨d₂, e₂, hp₂, hpar₂, hf₂⟩ := h₂
  refine ⟨d₁ ++ d₂, by rw [e₂, e₁, List.append_assoc], ?_, ?_, ?_⟩
  · intro n hn
    rcases List.mem_append.1 hn with h | h
    · exact hp₁ n h
    · exact hp₂ n h
  · intro hm
    rw [parentsOkAux_append, Bool.and_eq_true]
    refine ⟨hpar₁ hm, ?_⟩
    have hm₂ : pid ∈ ids g₂.nodes := by
      rw [e₁, ids_append]
      exact List.mem_append.2 (Or.inl hm)
    have h₂' := hpar₂ hm₂
    rw [show ids g₂.nodes = ids g₁.nodes ++ ids d₁ by rw [e₁, ids_append]] at h₂'
    rw [parentsOkAux_congr d₂ (ids d₁ ++ ids g₁.nodes) (ids g₁.nodes ++ ids d₁)
      (by intro y; simp [List.mem_append]; tauto)]
    exact h₂'
  · rw [outFreshAux_append, Bool.and_eq_true]
    refine ⟨hf₁, ?_⟩
    have h₂' := hf₂
    rw [show ids g₂.nodes = ids g₁.nodes ++ ids d₁ by rw [e₁, ids_append]] at h₂'
    rw [outFreshAux_congr d₂ (ids d₁ ++ ids g₁.nodes) (ids g₁.nodes ++ ids d₁)
      (by intro y; simp [List.mem_append]; tauto)]
    exact h₂'

theorem addNode_ok {g g₂ : GD} {n : GraphNode} (h : addNode g n = .ok g₂) :
    g₂.nodes = g.nodes ++ [n] ∧ g₂.links = g.links := by
  unfold addNode at h
  split at h
  · cases h
    exact ⟨rfl, rfl⟩
  · cases h

theorem ext_addNode {pid : Json} {g g₂ : GD} {n : GraphNode}
    (h : addNode g n = .ok g₂) (hpar : n.parent = some pid)
    (hhc : n.has_children = n.expandable) (hty : ¬ n.type = "output") :
    Ext pid g g₂ := by
  obtain ⟨e, -⟩ := addNode_ok h
  refine ⟨[n], e, ?_, ?_, ?_⟩
  · intro m hm
    rw [List.mem_singleton.1 hm]
    exact ⟨by rw [hpar]; rfl, hhc⟩
  · intro hm
    simp [parentsOkAux, hpar, memB_iff, hm]
  · simp [outFreshAux, hty]

theorem ext_addOutput {pid : Json} {g g₂ : GD} {n : GraphNode}
    (h : addNode g n = .ok g₂) (hpar : n.parent = some pid)
    (hhc : n.has_children = n.expandable)
    (hfresh : memB n.id (ids g.nodes) = false) : Ext pid g g₂ := by
  obtain ⟨e, -⟩ := addNode_ok h
  refine ⟨[n], e, ?_, ?_, ?_⟩
  · intro m hm
    rw [List.mem_singleton.1 hm]
    exact ⟨by rw [hpar]; rfl, hhc⟩
  · intro hm
    simp [parentsOkAux, hpar, memB_iff, hm]
  · simp [outFreshAux, hfresh]

theorem ext_descend {pid : Json} {g g₁ g₂ : GD} {n : GraphNode}
    (h : addNode g n = .ok g₁) (hpar : n.parent = some pid)
    (hhc : n.has_children = n.expandable) (hty : ¬ n.type = "output")
    (h₂ : Ext n.id g₁ g₂) : Ext pid g g₂ := by
  obtain ⟨e, -⟩ := addNode_ok h
  obtain ⟨d₂, e₂, hp₂, hpar₂, hf₂⟩ := h₂
  have hseen : ids g₁.nodes = ids g.nodes ++ [n.id] := by rw [e, ids_append]; rfl
  have hmem : n.id ∈ ids g₁.nodes := by rw [hseen]; simp
  have hcgr : ∀ y, y ∈ ids g₁.nodes ↔ y ∈ n.id :: ids g.nodes := by
    intro y
    rw [hseen]
    simp [List.mem_append, List.mem_cons]
    tauto
  refine ⟨n :: d₂, by rw [e₂, e]; simp, ?_, ?_, ?_⟩
  · intro m hm
    rcases List.mem_cons.1 hm with hm | hm
    · rw [hm]
      exact ⟨by rw [hpar]; rfl, hhc⟩
    · exact hp₂ m hm
  · intro hm
    have hpd := hpar₂ hmem
    rw [parentsOkAux_congr d₂ _ _ hcgr] at hpd
    simp [parentsOkAux, hpar, memB_iff, hm, hpd]
  · have hfd := hf₂
    rw [outFreshAux_congr d₂ _ _ hcgr] at hfd
    simp [outFreshAux, hty, hfd]

theorem ext_foldM {α : Type} {f : GD → α → Except String GD} {pid : Json} :
    ∀ {xs : List α} {g g₂ : GD},
      (∀ (h : GD) (x : α), x ∈ xs → ∀ h₂, f h x = .ok h₂ → Ext pid h h₂) →
      foldM f g xs = .ok g₂ → Ext pid g g₂ := by
  intro xs
  induction xs with
  | nil =>
    intro g g₂ _ h
    cases h
    exact ext_of_nodes_eq rfl
  | cons x xs ih =>
    intro g g₂ hf h
    rw [foldM] at h
    cases hfx : f g x with
    | error e => rw [hfx] at h; cases h
    | ok g₁ =>
      rw [hfx] at h
      simp only [bind, Except.bind] at h
      exact ext_trans (hf g x (by simp) g₁ hfx)
        (ih (fun h x hx => hf h x (List.mem_cons_of_mem _ hx)) h)

theorem pyNotIn_ok {x : Json} {l : List Json} {b : Bool} (h : pyNotIn x l = .ok b) :
    b = !memB x l := by
  unfold pyNotIn at h
  split at h
  · cases h
    rfl
  · cases h

theorem outputStep_ext {appId : Json} {g g₂ : GD} {p : Nat × Json}
    (h : outputStep appId g p = .ok g₂) : Ext appId g g₂ := by
  obtain ⟨i, o⟩ := p
  cases o <;> simp only [outputStep] at h <;>
    try (cases h; exact ext_of_nodes_eq rfl)
  case obj fs =>
    cases hn : pyNotIn (outputIdOf appId i (Json.obj fs)) (ids g.nodes) with
    | error e =>
      rw [hn] at h
      simp only [bind, Except.bind] at h
      exact Except.noConfusion h
    | ok b =>
      rw [hn] at h
      simp only [bind, Except.bind] at h
      split at h
      · cases ha : addNode g
          { id := outputIdOf appId i (Json.obj fs),
            name := pyGetD (Json.obj fs) "name" (.str ("Output " ++ toString (i + 1))),
            type := "output",
            description := pyGetD (Json.obj fs) "description" (.str ""),
            parent := some appId, level := 9, expandable := false, has_children := false } with
        | error e =>
          rw [ha] at h
          exact Except.noConfusion h
        | ok g₁ =>
          rw [ha] at h
          simp only [Except.bind] at h
          cases h
          refine ext_trans (ext_addOutput ha rfl rfl ?_) (ext_of_nodes_eq rfl)
          have hb := pyNotIn_ok hn
          rename_i hbt
          rw [hbt] at hb
          simpa using hb.symm
      · cases h
        exact ext_of_nodes_eq rfl

theorem inputStep_ext {appId : Json} {g g₂ : GD} {it : Json}
    (h : inputStep appId g it = .ok g₂) : Ext appId g g₂ := by
  cases it <;> simp only [inputStep] at h <;>
    try (cases h; exact ext_of_nodes_eq rfl)
  case obj fs =>
    cases ha : addNode g
        { id := pyGetD (Json.obj fs) "id" (.str (synth (pyStr appId) "input" g.nodes.length)),
          name := pyGetD (Json.obj fs) "name" (.str "Input"), type := "input",
          description := pyGetD (Json.obj fs) "description" (.str ""),
          parent := some appId, level := 9, expandable := false, has_children := false } with
    | error e =>
      rw [ha] at h
      exact Except.noConfusion h
    | ok g₁ =>
      rw [ha] at h
      simp only [bind, Except.bind] at h
      cases h
      refine ext_trans (ext_addNode ha rfl rfl ?_) (ext_of_nodes_eq rfl)
      simp

theorem except_bind_ok {α β : Type} {x : Except String α} {f : α → Except String β} {v : β} :
    (x >>= f) = .ok v ↔ ∃ a, x = .ok a ∧ f a = .ok v := by
  cases x <;> simp [bind, Except.bind]

theorem appStep_ext {tid : Json} {g g₂ : GD} {app : Json}
    (h : appStep tid g app = .ok g₂) : Ext tid g g₂ := by
  cases app <;> simp only [appStep] at h <;>
    try (cases h; exact ext_of_nodes_eq rfl)
  case obj fs =>
    rw [except_bind_ok] at h
    obtain ⟨inputsL, hi, h⟩ := h
    split at h
    case _ xs heq =>
      rw [except_bind_ok] at h
      obtain ⟨y, hy, h⟩ := h
      cases hy
      rw [except_bind_ok] at h
      obtain ⟨outs, hu, h⟩ := h
      rw [except_bind_ok] at h
      obtain ⟨g₁, ha, h⟩ := h
      rw [except_bind_ok] at h
      obtain ⟨g₃, hf₁, h⟩ := h
      have hIn : Ext (pyGetD (Json.obj fs) "id"
          (.str (synth (pyStr tid) "app" g.nodes.length))) _ g₃ :=
        ext_foldM (fun _ _ _ _ hh => inputStep_ext hh) hf₁
      have hOut : Ext (pyGetD (Json.obj fs) "id"
          (.str (synth (pyStr tid) "app" g.nodes.length))) g₃ g₂ :=
        ext_foldM (fun _ _ _ _ hh => outputStep_ext hh) h
      exact ext_descend ha rfl rfl (show ¬ "application" = "output" by decide)
        (ext_trans (ext_of_nodes_eq rfl) (ext_trans hIn hOut))
    case _ =>
      rw [except_bind_ok] at h
      obtain ⟨y, hy, -⟩ := h
      exact Except.noConfusion hy

theorem techStep_ext {iid : Json} {g g₂ : GD} {tech : Json}
    (h : techStep iid g tech = .ok g₂) : Ext iid g g₂ := by
  cases tech <;> simp only [techStep] at h <;>
    try (cases h; exact ext_of_nodes_eq rfl)
  case obj fs =>
    rw [except_bind_ok] at h
    obtain ⟨g₁, ha, h⟩ := h
    rw [except_bind_ok] at h
    obtain ⟨appsL, hl, h⟩ := h
    have hApps : Ext (pyGetD (Json.obj fs) "id"
        (.str (synth (pyStr iid) "technique" g.nodes.length))) _ g₂ :=
      ext_foldM (fun _ _ _ _ hh => appStep_ext hh) h
    exact ext_descend ha rfl rfl (show ¬ "technique" = "output" by decide)
      (ext_trans (ext_of_nodes_eq rfl) hApps)

theorem specStep_ext {fid : Json} {g g₂ : GD} {sp : Json}
    (h : specStep fid g sp = .ok g₂) : Ext fid g g₂ := by
  cases sp <;> simp only [specStep] at h <;>
    try (cases h; exact ext_of_nodes_eq rfl)
  case obj fs =>
    rw [except_bind_ok] at h
    obtain ⟨g₁, ha, h⟩ := h
    split at h
    case _ integ heq =>
      split at h
      case isTrue hpt =>
        rw [except_bind_ok] at h
        obtain ⟨g₃, hai, h⟩ := h
        rw [except_bind_ok] at h
        obtain ⟨techsL, htl, h⟩ := h
        have hTe := ext_foldM (fun _ _ _ _ hh => techStep_ext hh) h
        have h₅ := ext_descend hai rfl rfl (show ¬ "integration" = "output" by decide)
          (ext_trans (ext_of_nodes_eq rfl) hTe)
        exact ext_descend ha rfl rfl (show ¬ "specification" = "output" by decide)
          (ext_trans (ext_of_nodes_eq rfl) h₅)
      case isFalse =>
        cases h
        exact ext_trans (ext_addNode ha rfl rfl (show ¬ "specification" = "output" by decide))
          (ext_of_nodes_eq rfl)
    case _ heq =>
      cases h
      exact ext_trans (ext_addNode ha rfl rfl (show ¬ "specification" = "output" by decide))
        (ext_of_nodes_eq rfl)

theorem funcStep_ext {cid : Json} {g g₂ : GD} {f : Json}
    (h : funcStep cid g f = .ok g₂) : Ext cid g g₂ := by
  cases f <;> simp only [funcStep] at h <;>
    try (cases h; exact ext_of_nodes_eq rfl)
  case obj fs =>
    rw [except_bind_ok] at h
    obtain ⟨g₁, ha, h⟩ := h
    rw [except_bind_ok] at h
    obtain ⟨specsL, hl, h⟩ := h
    have hS := ext_foldM (fun _ _ _ _ hh => specStep_ext hh) h
    exact ext_descend ha rfl rfl (show ¬ "function" = "output" by decide)
      (ext_trans (ext_of_nodes_eq rfl) hS)

theorem capStep_ext {sid : String} {g g₂ : GD} {c : Json}
    (h : capStep sid g c = .ok g₂) : Ext (Json.str sid) g g₂ := by
  cases c <;> simp only [capStep] at h <;>
    try (cases h; exact ext_of_nodes_eq rfl)
  case obj fs =>
    rw [except_bind_ok] at h
    obtain ⟨g₁, ha, h⟩ := h
    rw [except_bind_ok] at h
    obtain ⟨funcsL, hl, h⟩ := h
    have hF := ext_foldM (fun _ _ _ _ hh => funcStep_ext hh) h
    exact ext_descend ha rfl rfl (show ¬ "capability" = "output" by decide)
      (ext_trans (ext_of_nodes_eq rfl) hF)

theorem subcompStep_ext {cid : String} {g g₂ : GD} {p : String × Json}
    (h : subcompStep cid g p = .ok g₂) : Ext (Json.str cid) g g₂ := by
  simp only [subcompStep] at h
  rw [except_bind_ok] at h
  obtain ⟨g₁, ha, h⟩ := h
  rw [except_bind_ok] at h
  obtain ⟨capsL, hl, h⟩ := h
  have hC := ext_foldM (fun _ _ _ _ hh => capStep_ext hh) h
  exact ext_descend ha rfl rfl (show ¬ "subcomponent" = "output" by decide)
    (ext_trans (ext_of_nodes_eq rfl) hC)

theorem componentStep_ext {subs : List (String × Json)} {rootId : Json} {g g₂ : GD}
    {p : String × Json} (h : componentStep subs rootId g p = .ok g₂) :
    Ext rootId g g₂ := by
  simp only [componentStep] at h
  rw [except_bind_ok] at h
  obtain ⟨csubs, hcs, h⟩ := h
  rw [except_bind_ok] at h
  obtain ⟨cname, hcn, h⟩ := h
  rw [except_bind_ok] at h
  obtain ⟨g₁, ha, h⟩ := h
  have hS := ext_foldM (fun _ _ _ _ hh => subcompStep_ext hh) h
  exact ext_descend ha rfl rfl (show ¬ "component" = "output" by decide)
    (ext_trans (ext_of_nodes_eq rfl) hS)

/-- Decomposition of a successful build: the node list starts with the root
node of app.py lines 217-225 (`expandable` literally true, `has_children` =
non-emptiness of the components mapping, no parent), and the remaining
nodes satisfy the step invariants. -/
theorem build_master {root : Json} {comps subs : List (String × Json)} {gd : GD}
    (h : build_graph_data root comps subs = .ok gd) :
    ∃ rid rname rdesc Δ,
      pySubscript root "id" = .ok rid ∧
      pySubscript root "name" = .ok rname ∧
      pySubscript root "description" = .ok rdesc ∧
      gd.nodes =
        { id := rid, name := rname, type := "component_group", description := rdesc,
          parent := none, level := 0, expandable := true,
          has_children := !comps.isEmpty } :: Δ ∧
      (∀ n ∈ Δ, n.parent.isSome = true ∧ n.has_children = n.expandable) ∧
      parentsOkAux [rid] Δ = true ∧
      outFreshAux [rid] Δ = true := by
  simp only [build_graph_data] at h
  rw [except_bind_ok] at h
  obtain ⟨rid, hid, h⟩ := h
  rw [except_bind_ok] at h
  obtain ⟨rname, hname, h⟩ := h
  rw [except_bind_ok] at h
  obtain ⟨rdesc, hdesc, h⟩ := h
  rw [except_bind_ok] at h
  obtain ⟨g₁, ha, h⟩ := h
  obtain ⟨e₁, -⟩ := addNode_ok ha
  have hE : Ext rid g₁ gd :=
    ext_foldM (fun _ _ _ _ hh => componentStep_ext hh) h
  obtain ⟨Δ, e₂, hp, hpar, hf⟩ := hE
  have hg₁ : g₁.nodes =
      [{ id := rid, name := rname, type := "component_group", description := rdesc,
         parent := none, level := 0, expandable := true,
         has_children := !comps.isEmpty }] := by
    rw [e₁]
    rfl
  have hids : ids g₁.nodes = [rid] := by rw [hg₁]; rfl
  refine ⟨rid, rname, rdesc, Δ, hid, hname, hdesc, ?_, hp, ?_, ?_⟩
  · rw [e₂, hg₁]
    rfl
  · have := hpar (by rw [hids]; simp)
    rwa [hids] at this
  · rwa [hids] at hf

/-- A concrete well-formed document set exercising every level of the
hierarchy; the application has a standalone output `o1` and one input whose
nested outputs are `o1` (duplicate) and `o2`. -/
def exInput : Json := .obj [("id", .str "i1"),
  ("outputs", .arr [.obj [("id", .str "o1")], .obj [("id", .str "o2")]])]

def exApp : Json := .obj [("id", .str "app1"),
  ("outputs", .arr [.obj [("id", .str "o1")]]),
  ("inputs", .arr [exInput])]

def exTech : Json := .obj [("id", .str "tech1"), ("applications", .arr [exApp])]

def exInteg : Json := .obj [("id", .str "int1"), ("techniques", .arr [exTech])]

def exSpec : Json := .obj [("id", .str "spec1"), ("integration", exInteg)]

def exFunc : Json := .obj [("id", .str "fun1"), ("specifications", .arr [exSpec])]

def exCap : Json := .obj [("id", .str "cap1"), ("functions", .arr [exFunc])]

def exSubcomp : Json := .obj [("parent", .str "c1"), ("name", .str "S1"),
  ("capabilities", .arr [exCap])]

def exComp : Json := .obj [("name", .str "C1")]

def exRoot : Json := .obj [("id", .str "ai-alignment"), ("name", .str "AI Alignment"),
  ("description", .str "root")]

def exComps : List (String × Json) := [("c1", exComp)]

def exSubs : List (String × Json) := [("s1", exSubcomp)]

def exBuild : Except String GD := build_graph_data exRoot exComps exSubs

def exGD : GD :=
  match exBuild with
  | .ok g => g
  | .error _ => ⟨[], []⟩

/-- CLAIM C1. For every root/components/subcomponents mapping on which
`build_graph_data` succeeds, the node list starts with the root node, which
alone carries no `parent`; every other node carries a `parent`, and each
such parent value equals the id of a node occurring earlier in the list. -/
theorem claim_C1 (root : Json) (comps subs : List (String × Json)) (gd : GD)
    (h : build_graph_data root comps subs = .ok gd) :
    (∃ rn Δ, gd.nodes = rn :: Δ ∧ rn.parent = none ∧ ∀ n ∈ Δ, n.parent.isSome = true) ∧
    parentsOkAux [] gd.nodes = true := by
  obtain ⟨rid, rname, rdesc, Δ, hid, hname, hdesc, e, hp, hpar, hf⟩ := build_master h
  constructor
  · exact ⟨_, Δ, e, rfl, fun n hn => (hp n hn).1⟩
  · rw [e]
    simp only [parentsOkAux, Bool.true_and]
    simpa using hpar

theorem claim_C1_witness :
    (∃ rn Δ, exGD.nodes = rn :: Δ ∧ rn.parent = none ∧ ∀ n ∈ Δ, n.parent.isSome = true) ∧
    parentsOkAux [] exGD.nodes = true :=
  claim_C1 exRoot exComps exSubs exGD rfl

/-- The ids of the nodes of type `output`, in emission order. -/
def outIds : List GraphNode → List Json
  | [] => []
  | n :: rest => if n.type == "output" then n.id :: outIds rest else outIds rest

/-- Pairwise distinctness of a list of JSON values. -/
def distinctB : List Json → Bool
  | [] => true
  | x :: xs => !memB x xs && distinctB xs

theorem memB_cons {x y : Json} {l : List Json} :
    memB x (y :: l) = ((y == x) || memB x l) := rfl

theorem outFreshAux_not_mem : ∀ (l : List GraphNode) (seen : List Json),
    outFreshAux seen l = true → ∀ x ∈ seen, memB x (outIds l) = false
  | [], _, _, _, _ => rfl
  | n :: rest, seen, h, x, hx => by
    rw [outFreshAux, Bool.and_eq_true] at h
    obtain ⟨hc, hrec⟩ := h
    have ih := outFreshAux_not_mem rest (n.id :: seen) hrec x (List.mem_cons_of_mem _ hx)
    rw [outIds]
    split
    case isTrue hty =>
      have h1 : memB n.id seen = false := by
        rw [hty] at hc
        simpa using hc
      have h2 : (n.id == x) = false := by
        rw [beq_eq_false_iff_ne]
        intro e
        rw [e] at h1
        rw [memB_iff.2 hx] at h1
        exact Bool.noConfusion h1
      rw [memB_cons, h2, ih]
      rfl
    case isFalse => exact ih

theorem outFreshAux_distinct : ∀ (l : List GraphNode) (seen : List Json),
    outFreshAux seen l = true → distinctB (outIds l) = true
  | [], _, _ => rfl
  | n :: rest, seen, h => by
    rw [outFreshAux, Bool.and_eq_true] at h
    obtain ⟨hc, hrec⟩ := h
    have ih := outFreshAux_distinct rest (n.id :: seen) hrec
    rw [outIds]
    split
    case isTrue hty =>
      have hnot := outFreshAux_not_mem rest (n.id :: seen) hrec n.id (by simp)
      rw [distinctB, hnot, ih]
      rfl
    case isFalse => exact ih

/-- CLAIM C3. First conjunct: at emission time, an output fragment whose
chosen id is already among the global node ids produces no node and no
`has_output` edge (the state is returned unchanged). Second conjunct: in
every successfully built graph, each output node's id differs from the ids
of all earlier nodes, so no two output nodes share an id. -/
theorem claim_C3 :
    (∀ (appId : Json) (g : GD) (idx : Nat) (o : Json), isDict o = true →
      isHashable (outputIdOf appId idx o) = true →
      memB (outputIdOf appId idx o) (ids g.nodes) = true →
      outputStep appId g (idx, o) = .ok g) ∧
    (∀ (root : Json) (comps subs : List (String × Json)) (gd : GD),
      build_graph_data root comps subs = .ok gd →
      outFreshAux [] gd.nodes = true ∧ distinctB (outIds gd.nodes) = true) := by
  constructor
  · intro appId g idx o hd hh hm
    cases o <;> simp [isDict] at hd
    rename_i fs
    simp only [outputStep]
    have hni : pyNotIn (outputIdOf appId idx (Json.obj fs)) (ids g.nodes) = .ok false := by
      simp [pyNotIn, hh, hm]
    rw [hni]
    simp [bind, Except.bind]
  · intro root comps subs gd h
    obtain ⟨rid, rname, rdesc, Δ, hid, hname, hdesc, e, hp, hpar, hf⟩ := build_master h
    have hfr : outFreshAux [] gd.nodes = true := by
      rw [e]
      simp only [outFreshAux]
      have : (("component_group" : String) == "output") = false := by decide
      rw [this]
      simpa using hf
    exact ⟨hfr, outFreshAux_distinct gd.nodes [] hfr⟩

theorem claim_C3_witness :
    outputStep (.str "app1") exGD (0, .obj [("id", .str "o1")]) = .ok exGD ∧
    (outFreshAux [] exGD.nodes = true ∧ distinctB (outIds exGD.nodes) = true) :=
  ⟨claim_C3.1 (.str "app1") exGD 0 (.obj [("id", .str "o1")]) rfl rfl (by rfl),
   claim_C3.2 exRoot exComps exSubs exGD rfl⟩

/-- Projection to the first node of a build result (the root node when the
build succeeded). -/
def headNodeOf : Except String GD → Option GraphNode
  | .ok gd => gd.nodes.head?
  | .error _ => none

def c4Root : Json := .obj [("id", .str "r"), ("name", .str "R"), ("description", .str "d")]

/-- CLAIM C4, counterexample. With an empty components mapping the emitted
root node has `expandable = true` (the literal `True` of app.py line 223),
whereas the claim requires `expandable = false` when there are no
components; `has_children` is the field that is false. -/
theorem claim_C4_counterexample :
    (headNodeOf (build_graph_data c4Root [] [])).map (fun n => n.expandable) = some true ∧
    (headNodeOf (build_graph_data c4Root [] [])).map (fun n => n.has_children) = some false :=
  ⟨rfl, rfl⟩

/-- CLAIM C4 as amended: the root node emitted by `build_graph_data` always
has `expandable = true`, and it is `has_children` (not `expandable`) that
equals the non-emptiness of the components mapping. -/
theorem claim_C4 (root : Json) (comps subs : List (String × Json)) (gd : GD)
    (h : build_graph_data root comps subs = .ok gd) :
    ∃ rn Δ, gd.nodes = rn :: Δ ∧ rn.expandable = true ∧
      rn.has_children = !comps.isEmpty := by
  obtain ⟨rid, rname, rdesc, Δ, hid, hname, hdesc, e, hp, hpar, hf⟩ := build_master h
  exact ⟨_, Δ, e, rfl, rfl⟩

theorem claim_C4_witness :
    ∃ rn Δ, exGD.nodes = rn :: Δ ∧ rn.expandable = true ∧
      rn.has_children = !exComps.isEmpty :=
  claim_C4 exRoot exComps exSubs exGD rfl

/-- CLAIM C5, counterexample. For the root node built from an empty
components mapping, `has_children` is `false` while `expandable` is `true`,
so the two fields are not equal on every node. -/
theorem claim_C5_counterexample :
    (headNodeOf (build_graph_data c4Root [] [])).map (fun n => (n.has_children, n.expandable))
      = some (false, true) := rfl

/-- CLAIM C5 as amended: `has_children` equals `expandable` for every node
except the root; for the root node, `expandable` is always `true` while
`has_children` equals the non-emptiness of the components mapping, so they
coincide only when some component exists. -/
theorem claim_C5 (root : Json) (comps subs : List (String × Json)) (gd : GD)
    (h : build_graph_data root comps subs = .ok gd) :
    ∃ rn Δ, gd.nodes = rn :: Δ ∧ (∀ n ∈ Δ, n.has_children = n.expandable) ∧
      rn.expandable = true ∧ rn.has_children = !comps.isEmpty := by
  obtain ⟨rid, rname, rdesc, Δ, hid, hname, hdesc, e, hp, hpar, hf⟩ := build_master h
  exact ⟨_, Δ, e, fun n hn => (hp n hn).2, rfl, rfl⟩

theorem claim_C5_witness :
    ∃ rn Δ, exGD.nodes = rn :: Δ ∧ (∀ n ∈ Δ, n.has_children = n.expandable) ∧
      rn.expandable = true ∧ rn.has_children = !exComps.isEmpty :=
  claim_C5 exRoot exComps exSubs exGD rfl

/-- The deduplication described by the spec's words, formulated as removal
of later duplicates: keep the first occurrence of each non-empty (truthy)
id by deleting every later object entry with the same id; keep every object
entry whose id is empty or absent; object-less entries never yield output
nodes and are dropped (the code's isinstance guard). -/
def dedupSpec : List Json → List Json
  | [] => []
  | o :: rest =>
    if isDict o then
      if pyTruthy (idVal o) then
        o :: dedupSpec (rest.filter (fun q => !(isDict q && (idVal q == idVal o))))
      else o :: dedupSpec rest
    else dedupSpec rest
termination_by l => l.length
decreasing_by
  all_goals simp_wf
  all_goals exact Nat.lt_succ_of_le (List.length_filter_le _ _)

theorem uniqueOutputsGo_eq :
    ∀ (outs seen : List Json),
      (∀ o ∈ outs, isDict o = true → pyTruthy (idVal o) = true → isHashable (idVal o) = true) →
      uniqueOutputsGo seen outs =
        .ok (dedupSpec (outs.filter
          (fun o => !(isDict o && (pyTruthy (idVal o) && memB (idVal o) seen)))))
  | [], seen, _ => by simp [uniqueOutputsGo, dedupSpec]
  | o :: rest, seen, hh => by
    have hhr : ∀ x ∈ rest, isDict x = true → pyTruthy (idVal x) = true →
        isHashable (idVal x) = true :=
      fun x hx => hh x (List.mem_cons_of_mem _ hx)
    cases o with
    | obj fs =>
      simp only [uniqueOutputsGo]
      by_cases ht : pyTruthy (idVal (Json.obj fs)) = true
      · rw [if_pos ht]
        have hhash : isHashable (idVal (Json.obj fs)) = true := hh _ (by simp) rfl ht
        by_cases hm : memB (idVal (Json.obj fs)) seen = true
        · have hni : pyNotIn (idVal (Json.obj fs)) seen = .ok false := by
            simp [pyNotIn, hhash, hm]
          rw [hni]
          simp only [bind, Except.bind, Bool.false_eq_true, if_false]
          rw [List.filter_cons_of_neg (by simp [isDict, ht, hm])]
          exact uniqueOutputsGo_eq rest seen hhr
        · have hmf : memB (idVal (Json.obj fs)) seen = false := Bool.eq_false_iff.mpr hm
          have hni : pyNotIn (idVal (Json.obj fs)) seen = .ok true := by
            simp [pyNotIn, hhash, hmf]
          rw [hni]
          simp only [bind, Except.bind, if_true]
          rw [uniqueOutputsGo_eq rest (idVal (Json.obj fs) :: seen) hhr]
          simp only [bind, Except.bind]
          rw [List.filter_cons_of_pos (by simp [isDict, hmf])]
          rw [show dedupSpec (Json.obj fs :: rest.filter
              (fun q => !(isDict q && (pyTruthy (idVal q) && memB (idVal q) seen)))) =
            Json.obj fs :: dedupSpec ((rest.filter
              (fun q => !(isDict q && (pyTruthy (idVal q) && memB (idVal q) seen)))).filter
                (fun q => !(isDict q && (idVal q == idVal (Json.obj fs)))))
            from by rw [dedupSpec]; simp [isDict, ht]]
          rw [List.filter_filter]
          have hpt : ∀ x ∈ rest,
              (!(isDict x && (idVal x == idVal (Json.obj fs))) &&
               !(isDict x && (pyTruthy (idVal x) && memB (idVal x) seen))) =
              !(isDict x && (pyTruthy (idVal x) &&
                 memB (idVal x) (idVal (Json.obj fs) :: seen))) := by
            intro x hx
            rw [memB_cons]
            by_cases he : (idVal x == idVal (Json.obj fs)) = true
            · have hex : idVal x = idVal (Json.obj fs) := eq_of_beq he
              have htx : pyTruthy (idVal x) = true := by rw [hex]; exact ht
              have he2 : (idVal (Json.obj fs) == idVal x) = true := by
                rw [hex, beq_self_eq_true]
              cases hdx : isDict x <;> simp [hdx, he, he2, htx]
            · have hef : (idVal x == idVal (Json.obj fs)) = false := Bool.eq_false_iff.mpr he
              have he2 : (idVal (Json.obj fs) == idVal x) = false := by
                rw [Bool.eq_false_iff]
                intro hb
                exact he (by rw [eq_of_beq hb, beq_self_eq_true])
              cases hdx : isDict x <;> simp [hdx, hef, he2]
          rw [List.filter_congr hpt]
      · have htf : pyTruthy (idVal (Json.obj fs)) = false := Bool.eq_false_iff.mpr ht
        rw [if_neg ht]
        rw [uniqueOutputsGo_eq rest seen hhr]
        simp only [bind, Except.bind]
        rw [List.filter_cons_of_pos (by simp [isDict, htf])]
        rw [show dedupSpec (Json.obj fs :: rest.filter
            (fun q => !(isDict q && (pyTruthy (idVal q) && memB (idVal q) seen)))) =
          Json.obj fs :: dedupSpec (rest.filter
            (fun q => !(isDict q && (pyTruthy (idVal q) && memB (idVal q) seen))))
          from by rw [dedupSpec]; simp [isDict, htf]]
    | null =>
      simp only [uniqueOutputsGo]
      rw [List.filter_cons_of_pos (by simp [isDict])]
      rw [show ∀ l, dedupSpec (Json.null :: l) = dedupSpec l from
        fun l => by rw [dedupSpec]; simp [isDict]]
      exact uniqueOutputsGo_eq rest seen hhr
    | bool b =>
      simp only [uniqueOutputsGo]
      rw [List.filter_cons_of_pos (by simp [isDict])]
      rw [show ∀ l, dedupSpec (Json.bool b :: l) = dedupSpec l from
        fun l => by rw [dedupSpec]; simp [isDict]]
      exact uniqueOutputsGo_eq rest seen hhr
    | num n =>
      simp only [uniqueOutputsGo]
      rw [List.filter_cons_of_pos (by simp [isDict])]
      rw [show ∀ l, dedupSpec (Json.num n :: l) = dedupSpec l from
        fun l => by rw [dedupSpec]; simp [isDict]]
      exact uniqueOutputsGo_eq rest seen hhr
    | str s =>
      simp only [uniqueOutputsGo]
      rw [List.filter_cons_of_pos (by simp [isDict])]
      rw [show ∀ l, dedupSpec (Json.str s :: l) = dedupSpec l from
        fun l => by rw [dedupSpec]; simp [isDict]]
      exact uniqueOutputsGo_eq rest seen hhr
    | arr xs =>
      simp only [uniqueOutputsGo]
      rw [List.filter_cons_of_pos (by simp [isDict])]
      rw [show ∀ l, dedupSpec (Json.arr xs :: l) = dedupSpec l from
        fun l => by rw [dedupSpec]; simp [isDict]]
      exact uniqueOutputsGo_eq rest seen hhr

/-- CLAIM C2. First conjunct: the code's per-application output
deduplication equals the spec-worded one (`dedupSpec`) on the concatenated
standalone-plus-nested outputs list, for any list whose truthy ids are
hashable. Second conjunct: in the concrete build whose application has
outputs `[o1]` and one input with nested outputs `[o1, o2]`, exactly the
output nodes `o1` and `o2` are emitted, each once, as children of that
application. -/
theorem claim_C2 :
    (∀ outs : List Json,
      (∀ o ∈ outs, isDict o = true → pyTruthy (idVal o) = true → isHashable (idVal o) = true) →
      uniqueOutputsGo [] outs = .ok (dedupSpec outs)) ∧
    ((exGD.nodes.filter (fun n => n.type == "output")).map (fun n => (n.id, n.parent))
      = [(.str "o1", some (.str "app1")), (.str "o2", some (.str "app1"))]) := by
  constructor
  · intro outs hh
    rw [uniqueOutputsGo_eq outs [] hh]
    have : ∀ o ∈ outs,
        (!(isDict o && (pyTruthy (idVal o) && memB (idVal o) ([] : List Json)))) = true := by
      intro o _
      simp [memB]
    rw [List.filter_eq_self.2 this]
  · rfl

def c2Outs : List Json :=
  [.obj [("id", .str "o1")], .obj [("id", .str "o1")], .obj [("id", .str "o2")]]

theorem claim_C2_witness : uniqueOutputsGo [] c2Outs = .ok (dedupSpec c2Outs) :=
  claim_C2.1 c2Outs (by decide)

/-- A fragment's explicit `id`, when present, is hashable (sufficient for
the dedup set and for `node_map` keys). -/
def idHashOk (j : Json) : Bool :=
  match jget? j "id" with
  | some v => isHashable v
  | none => true

/-- Sufficient well-formedness of an input fragment: hashable id, and its
nested `outputs` (list or single-object form) have hashable ids. -/
def wfInput (i : Json) : Bool :=
  idHashOk i &&
  (match jget? i "outputs" with
   | some (.arr xs) => xs.all (fun o => !(isDict o) || idHashOk o)
   | some (.obj gs) => idHashOk (.obj gs)
   | some _ => true
   | none => true)

/-- A child-collection field is an array whose entries all satisfy `p`
(missing fields count as the empty default array). -/
def childArrAll (a : Json) (k : String) (p : Json → Bool) : Bool :=
  match jget? a k with
  | some (.arr xs) => xs.all p
  | some _ => false
  | none => true

/-- Sufficient well-formedness of an application fragment: hashable id,
`inputs` and `outputs` are arrays when present, with well-formed entries. -/
def wfApp (a : Json) : Bool :=
  idHashOk a &&
  childArrAll a "inputs" (fun i => !(isDict i) || wfInput i) &&
  childArrAll a "outputs" (fun o => !(isDict o) || idHashOk o)

def wfTechnique (t : Json) : Bool :=
  idHashOk t &&
  childArrAll t "applications" (fun a => !(isDict a) || wfApp a)

def wfIntegration (g : Json) : Bool :=
  idHashOk g &&
  childArrAll g "techniques" (fun t => !(isDict t) || wfTechnique t)

def wfSpec (s : Json) : Bool :=
  idHashOk s &&
  (match jget? s "integration" with
   | some v => !(pyTruthy v && isDict v) || wfIntegration v
   | none => true)

def wfFunction (f : Json) : Bool :=
  idHashOk f &&
  childArrAll f "specifications" (fun s => !(isDict s) || wfSpec s)

def wfCapability (c : Json) : Bool :=
  idHashOk c &&
  childArrAll c "functions" (fun f => !(isDict f) || wfFunction f)

/-- Sufficient well-formedness of a subcomponent document: an object whose
normalized capabilities are an array of well-formed entries. -/
def wfSubcomp (s : Json) : Bool :=
  isDict s &&
  (match extractCaps s with
   | .arr xs => xs.all (fun c => !(isDict c) || wfCapability c)
   | _ => false)

def wfRoot (root : Json) : Bool :=
  match root with
  | .obj _ =>
    (match jget? root "id" with
     | some v => isHashable v
     | none => false) &&
    (jget? root "name").isSome && (jget? root "description").isSome
  | _ => false

/-- Sufficient well-formedness of a whole document set for the builder to
succeed. -/
def wfDocs (root : Json) (comps subs : List (String × Json)) : Bool :=
  wfRoot root &&
  comps.all (fun p => isDict p.2 && (jget? p.2 "name").isSome) &&
  subs.all (fun p => wfSubcomp p.2)

theorem idVal_hash {o : Json} (h : idHashOk o = true) : isHashable (idVal o) = true := by
  unfold idHashOk at h
  unfold idVal pyGetD
  cases hj : jget? o "id" with
  | some v => rw [hj] at h; simpa using h
  | none => rfl

theorem outputIdOf_hash {appId : Json} {idx : Nat} {o : Json} (h : idHashOk o = true) :
    isHashable (outputIdOf appId idx o) = true := by
  unfold idHashOk at h
  unfold outputIdOf
  cases hj : jget? o "id" with
  | some v =>
    rw [hj] at h
    simp only [hj]
    split
    · simpa using h
    · rfl
  | none =>
    simp only [hj]
    rfl

theorem foldM_ok {α : Type} {f : GD → α → Except String GD} :
    ∀ {xs : List α}, (∀ (g : GD) (x : α), x ∈ xs → ∃ g₂, f g x = .ok g₂) →
      ∀ g, ∃ g₂, foldM f g xs = .ok g₂ := by
  intro xs
  induction xs with
  | nil => exact fun _ g => ⟨g, rfl⟩
  | cons x xs ih =>
    intro hf g
    obtain ⟨g₁, h₁⟩ := hf g x (by simp)
    obtain ⟨g₂, h₂⟩ := ih (fun g y hy => hf g y (List.mem_cons_of_mem _ hy)) g₁
    refine ⟨g₂, ?_⟩
    rw [foldM, h₁]
    simpa [bind, Except.bind] using h₂

theorem uniqueOutputsGo_ok :
    ∀ (outs seen : List Json),
      (∀ o ∈ outs, isDict o = true → idHashOk o = true) →
      ∃ l, uniqueOutputsGo seen outs = .ok l ∧ ∀ o ∈ l, o ∈ outs
  | [], _, _ => ⟨[], rfl, by simp⟩
  | o :: rest, seen, hh => by
    have hhr : ∀ x ∈ rest, isDict x = true → idHashOk x = true :=
      fun x hx => hh x (List.mem_cons_of_mem _ hx)
    cases o with
    | obj fs =>
      have hho : idHashOk (Json.obj fs) = true := hh _ (by simp) rfl
      simp only [uniqueOutputsGo]
      by_cases ht : pyTruthy (idVal (Json.obj fs)) = true
      · rw [if_pos ht]
        have hni : pyNotIn (idVal (Json.obj fs)) seen
            = .ok (!memB (idVal (Json.obj fs)) seen) := by
          simp [pyNotIn, idVal_hash hho]
        rw [hni]
        simp only [bind, Except.bind]
        by_cases hm : memB (idVal (Json.obj fs)) seen = true
        · rw [hm]
          obtain ⟨l, hl, hs⟩ := uniqueOutputsGo_ok rest seen hhr
          exact ⟨l, by simpa using hl, fun x hx => List.mem_cons_of_mem _ (hs x hx)⟩
        · rw [Bool.eq_false_iff.mpr hm]
          obtain ⟨l, hl, hs⟩ :=
            uniqueOutputsGo_ok rest (idVal (Json.obj fs) :: seen) hhr
          refine ⟨Json.obj fs :: l, ?_, ?_⟩
          · simp only [Bool.not_false, if_true]
            rw [hl]
          · intro x hx
            rcases List.mem_cons.1 hx with hx | hx
            · rw [hx]; simp
            · exact List.mem_cons_of_mem _ (hs x hx)
      · rw [if_neg ht]
        obtain ⟨l, hl, hs⟩ := uniqueOutputsGo_ok rest seen hhr
        refine ⟨Json.obj fs :: l, ?_, ?_⟩
        · rw [hl]
          rfl
        · intro x hx
          rcases List.mem_cons.1 hx with hx | hx
          · rw [hx]; simp
          · exact List.mem_cons_of_mem _ (hs x hx)
    | null =>
      obtain ⟨l, hl, hs⟩ := uniqueOutputsGo_ok rest seen hhr
      exact ⟨l, by simpa [uniqueOutputsGo] using hl,
        fun x hx => List.mem_cons_of_mem _ (hs x hx)⟩
    | bool b =>
      obtain ⟨l, hl, hs⟩ := uniqueOutputsGo_ok rest seen hhr
      exact ⟨l, by simpa [uniqueOutputsGo] using hl,
        fun x hx => List.mem_cons_of_mem _ (hs x hx)⟩
    | num n =>
      obtain ⟨l, hl, hs⟩ := uniqueOutputsGo_ok rest seen hhr
      exact ⟨l, by simpa [uniqueOutputsGo] using hl,
        fun x hx => List.mem_cons_of_mem _ (hs x hx)⟩
    | str s =>
      obtain ⟨l, hl, hs⟩ := uniqueOutputsGo_ok rest seen hhr
      exact ⟨l, by simpa [uniqueOutputsGo] using hl,
        fun x hx => List.mem_cons_of_mem _ (hs x hx)⟩
    | arr xs =>
      obtain ⟨l, hl, hs⟩ := uniqueOutputsGo_ok rest seen hhr
      exact ⟨l, by simpa [uniqueOutputsGo] using hl,
        fun x hx => List.mem_cons_of_mem _ (hs x hx)⟩

theorem hasKey_isSome {fs : List (String × Json)} {k : String} :
    (fs.any (fun p => p.1 == k)) = true ↔ (jget? (.obj fs) k).isSome = true := by
  simp [jget?, List.any_eq_true, List.find?_isSome]

theorem getId_hash {o : Json} {d : String} (h : idHashOk o = true) :
    isHashable (pyGetD o "id" (.str d)) = true := by
  unfold idHashOk at h
  unfold pyGetD
  cases hj : jget? o "id" with
  | some v =>
    rw [hj] at h
    simpa using h
  | none => rfl

theorem snd_mem_of_mem_enumFrom : ∀ {l : List Json} {n : Nat} {p : Nat × Json},
    p ∈ l.enumFrom n → p.2 ∈ l := by
  intro l
  induction l with
  | nil =>
    intro n p h
    simp [List.enumFrom] at h
  | cons x xs ih =>
    intro n p h
    rw [List.enumFrom] at h
    rcases List.mem_cons.1 h with h | h
    · rw [h]
      simp
    · exact List.mem_cons_of_mem _ (ih h)

theorem snd_mem_of_mem_enum {l : List Json} {p : Nat × Json} (h : p ∈ l.enum) : p.2 ∈ l :=
  snd_mem_of_mem_enumFrom h

theorem inputNested_hash {it : Json} (h : isDict it = true → wfInput it = true) :
    ∀ o ∈ inputNested it, isDict o = true → idHashOk o = true := by
  cases it with
  | obj fs =>
    have hw : wfInput (Json.obj fs) = true := h rfl
    rw [wfInput, Bool.and_eq_true] at hw
    obtain ⟨-, houts⟩ := hw
    intro o ho
    rw [inputNested] at ho
    split at ho
    case isTrue hk =>
      cases hj : jget? (Json.obj fs) "outputs" with
      | some v =>
        rw [hj] at houts
        rw [show pyGetD (Json.obj fs) "outputs" (.arr []) = v from by
          unfold pyGetD; rw [hj]; rfl] at ho
        cases v with
        | arr xs =>
          simp only [List.all_eq_true] at houts
          have := houts o ho
          intro hd
          rw [hd] at this
          simpa using this
        | obj gs =>
          rw [List.mem_singleton.1 ho]
          intro _
          exact houts
        | null => simp at ho
        | bool b => simp at ho
        | num n => simp at ho
        | str s => simp at ho
      | none =>
        exfalso
        have := hasKey_isSome.1 hk
        rw [hj] at this
        simp at this
    case isFalse => simp at ho
  | null => intro o ho; simp [inputNested] at ho
  | bool b => intro o ho; simp [inputNested] at ho
  | num n => intro o ho; simp [inputNested] at ho
  | str st => intro o ho; simp [inputNested] at ho
  | arr xs => intro o ho; simp [inputNested] at ho

theorem nestedOutputsOf_hash : ∀ (inputs : List Json),
    (∀ i ∈ inputs, isDict i = true → wfInput i = true) →
    ∀ o ∈ nestedOutputsOf inputs, isDict o = true → idHashOk o = true
  | [], _, o, ho => by simp [nestedOutputsOf] at ho
  | it :: rest, hh, o, ho => by
    rw [nestedOutputsOf] at ho
    rcases List.mem_append.1 ho with hm | hm
    · exact inputNested_hash (hh it (by simp)) o hm
    · exact nestedOutputsOf_hash rest (fun i hi => hh i (List.mem_cons_of_mem _ hi)) o hm

theorem outputStep_ok {appId : Json} {g : GD} {idx : Nat} {o : Json}
    (h : isDict o = true → idHashOk o = true) :
    ∃ g₂, outputStep appId g (idx, o) = .ok g₂ := by
  cases o with
  | obj fs =>
    have hho := h rfl
    simp only [outputStep]
    rw [show pyNotIn (outputIdOf appId idx (Json.obj fs)) (ids g.nodes)
        = .ok (!memB (outputIdOf appId idx (Json.obj fs)) (ids g.nodes)) from by
      simp [pyNotIn, outputIdOf_hash hho]]
    simp only [bind, Except.bind]
    by_cases hm : memB (outputIdOf appId idx (Json.obj fs)) (ids g.nodes) = true
    · rw [hm]
      exact ⟨g, rfl⟩
    · rw [Bool.eq_false_iff.mpr hm]
      simp only [Bool.not_false, if_true]
      have ha : addNode g
          { id := outputIdOf appId idx (Json.obj fs),
            name := pyGetD (Json.obj fs) "name" (.str ("Output " ++ toString (idx + 1))),
            type := "output",
            description := pyGetD (Json.obj fs) "description" (.str ""),
            parent := some appId, level := 9, expandable := false, has_children := false }
          = .ok ⟨g.nodes ++
          [{ id := outputIdOf appId idx (Json.obj fs),
             name := pyGetD (Json.obj fs) "name" (.str ("Output " ++ toString (idx + 1))),
             type := "output",
             description := pyGetD (Json.obj fs) "description" (.str ""),
             parent := some appId, level := 9, expandable := false, has_children := false }],
           g.links⟩ := by
        simp [addNode, outputIdOf_hash hho]
      rw [ha]
      simp only [bind, Except.bind]
      exact ⟨_, rfl⟩
  | null => exact ⟨g, rfl⟩
  | bool b => exact ⟨g, rfl⟩
  | num n => exact ⟨g, rfl⟩
  | str st => exact ⟨g, rfl⟩
  | arr xs => exact ⟨g, rfl⟩

theorem inputStep_ok {appId : Json} {g : GD} {it : Json}
    (h : isDict it = true → idHashOk it = true) :
    ∃ g₂, inputStep appId g it = .ok g₂ := by
  cases it with
  | obj fs =>
    have hho := h rfl
    simp only [inputStep]
    have ha : addNode g
        { id := pyGetD (Json.obj fs) "id" (.str (synth (pyStr appId) "input" g.nodes.length)),
          name := pyGetD (Json.obj fs) "name" (.str "Input"), type := "input",
          description := pyGetD (Json.obj fs) "description" (.str ""),
          parent := some appId, level := 9, expandable := false, has_children := false }
        = .ok ⟨g.nodes ++
        [{ id := pyGetD (Json.obj fs) "id" (.str (synth (pyStr appId) "input" g.nodes.length)),
           name := pyGetD (Json.obj fs) "name" (.str "Input"), type := "input",
           description := pyGetD (Json.obj fs) "description" (.str ""),
           parent := some appId, level := 9, expandable := false, has_children := false }],
         g.links⟩ := by
      simp [addNode, getId_hash hho]
    rw [ha]
    simp only [bind, Except.bind]
    exact ⟨_, rfl⟩
  | null => exact ⟨g, rfl⟩
  | bool b => exact ⟨g, rfl⟩
  | num n => exact ⟨g, rfl⟩
  | str st => exact ⟨g, rfl⟩
  | arr xs => exact ⟨g, rfl⟩

theorem addNode_ok_of_hash {g : GD} {n : GraphNode} (h : isHashable n.id = true) :
    addNode g n = .ok ⟨g.nodes ++ [n], g.links⟩ := by
  simp [addNode, h]

theorem or_guard {b w : Bool} (h : (!b || w) = true) (hb : b = true) : w = true := by
  rw [hb] at h
  simpa using h

theorem wfInput_idHash {i : Json} (h : wfInput i = true) : idHashOk i = true := by
  rw [wfInput, Bool.and_eq_true] at h
  exact h.1

theorem wfSubcomp_isDict {s : Json} (h : wfSubcomp s = true) : isDict s = true := by
  rw [wfSubcomp, Bool.and_eq_true] at h
  exact h.1

theorem childArr_of_wf {a : Json} {k : String} {p : Json → Bool}
    (h : childArrAll a k p = true) :
    ∃ xs, pyGetD a k (.arr []) = .arr xs ∧ ∀ x ∈ xs, p x = true := by
  unfold childArrAll at h
  cases hj : jget? a k with
  | some v =>
    rw [hj] at h
    cases v with
    | arr xs =>
      refine ⟨xs, ?_, ?_⟩
      · unfold pyGetD
        rw [hj]
        rfl
      · intro x hx
        exact List.all_eq_true.1 (by simpa using h) x hx
    | null => simp at h
    | bool b => simp at h
    | num n => simp at h
    | str st => simp at h
    | obj gs => simp at h
  | none =>
    refine ⟨[], ?_, ?_⟩
    · unfold pyGetD
      rw [hj]
      rfl
    · intro x hx
      simp at hx

theorem appStep_ok {tid : Json} {g : GD} {app : Json}
    (h : isDict app = true → wfApp app = true) :
    ∃ g₂, appStep tid g app = .ok g₂ := by
  cases app with
  | obj fs =>
    have hw := h rfl
    rw [wfApp, Bool.and_eq_true, Bool.and_eq_true] at hw
    obtain ⟨⟨hid, hin⟩, hout⟩ := hw
    obtain ⟨ixs, hixs, hiwf⟩ := childArr_of_wf hin
    obtain ⟨oxs, hoxs, howf⟩ := childArr_of_wf hout
    have hcat : ∀ o ∈ oxs ++ nestedOutputsOf ixs, isDict o = true → idHashOk o = true := by
      intro o ho hd
      rcases List.mem_append.1 ho with hm | hm
      · exact or_guard (howf o hm) hd
      · exact nestedOutputsOf_hash ixs
          (fun i hi hdi => or_guard (hiwf i hi) hdi) o hm hd
    obtain ⟨outs, houts, hsub⟩ := uniqueOutputsGo_ok (oxs ++ nestedOutputsOf ixs) [] hcat
    simp only [appStep]
    rw [hixs, hoxs]
    simp only [pyIter, bind, Except.bind]
    rw [houts]
    simp only [bind, Except.bind]
    rw [addNode_ok_of_hash (getId_hash hid)]
    simp only [bind, Except.bind]
    obtain ⟨g₃, h₃⟩ := foldM_ok
      (fun gg x hx => inputStep_ok (fun hdx => wfInput_idHash (or_guard (hiwf x hx) hdx)))
      (addLink ⟨g.nodes ++
        [{ id := pyGetD (Json.obj fs) "id" (.str (synth (pyStr tid) "app" g.nodes.length)),
           name := pyGetD (Json.obj fs) "name" (.str "Application"), type := "application",
           description := pyGetD (Json.obj fs) "description" (.str ""),
           parent := some tid, level := 8,
           expandable := pyTruthy (Json.arr ixs) || !outs.isEmpty,
           has_children := pyTruthy (Json.arr ixs) || !outs.isEmpty }], g.links⟩
        tid (pyGetD (Json.obj fs) "id" (.str (synth (pyStr tid) "app" g.nodes.length)))
        "has_application")
    rw [h₃]
    simp only [bind, Except.bind]
    exact foldM_ok
      (fun gg x hx => by
        obtain ⟨i, o⟩ := x
        exact outputStep_ok (fun hdo => hcat o (hsub o (snd_mem_of_mem_enum hx)) hdo))
      g₃
  | null => exact ⟨g, rfl⟩
  | bool b => exact ⟨g, rfl⟩
  | num n => exact ⟨g, rfl⟩
  | str st => exact ⟨g, rfl⟩
  | arr xs => exact ⟨g, rfl⟩

theorem techStep_ok {iid : Json} {g : GD} {tech : Json}
    (h : isDict tech = true → wfTechnique tech = true) :
    ∃ g₂, techStep iid g tech = .ok g₂ := by
  cases tech with
  | obj fs =>
    have hw := h rfl
    rw [wfTechnique, Bool.and_eq_true] at hw
    obtain ⟨hid, happs⟩ := hw
    obtain ⟨axs, haxs, hawf⟩ := childArr_of_wf happs
    simp only [techStep]
    rw [haxs]
    rw [addNode_ok_of_hash (getId_hash hid)]
    simp only [bind, Except.bind, pyIter]
    exact foldM_ok (fun gg x hx => appStep_ok (fun hdx => or_guard (hawf x hx) hdx)) _
  | null => exact ⟨g, rfl⟩
  | bool b => exact ⟨g, rfl⟩
  | num n => exact ⟨g, rfl⟩
  | str st => exact ⟨g, rfl⟩
  | arr xs => exact ⟨g, rfl⟩

theorem specStep_ok {fid : Json} {g : GD} {sp : Json}
    (h : isDict sp = true → wfSpec sp = true) :
    ∃ g₂, specStep fid g sp = .ok g₂ := by
  cases sp with
  | obj fs =>
    have hw := h rfl
    rw [wfSpec, Bool.and_eq_true] at hw
    obtain ⟨hid, hinteg⟩ := hw
    simp only [specStep]
    cases hj : jget? (Json.obj fs) "integration" with
    | none =>
      simp only [hj]
      rw [addNode_ok_of_hash (getId_hash hid)]
      simp only [bind, Except.bind]
      exact ⟨_, rfl⟩
    | some v =>
      rw [hj] at hinteg
      simp only [hj]
      rw [addNode_ok_of_hash (getId_hash hid)]
      simp only [bind, Except.bind]
      by_cases htv : (pyTruthy v && isDict v) = true
      · rw [if_pos htv]
        have hwi : wfIntegration v = true := or_guard hinteg htv
        rw [wfIntegration, Bool.and_eq_true] at hwi
        obtain ⟨hidI, htechs⟩ := hwi
        obtain ⟨txs, htxs, htwf⟩ := childArr_of_wf htechs
        rw [htxs]
        rw [addNode_ok_of_hash (getId_hash hidI)]
        simp only [bind, Except.bind, pyIter]
        exact foldM_ok (fun gg x hx => techStep_ok (fun hdx => or_guard (htwf x hx) hdx)) _
      · rw [if_neg htv]
        exact ⟨_, rfl⟩
  | null => exact ⟨g, rfl⟩
  | bool b => exact ⟨g, rfl⟩
  | num n => exact ⟨g, rfl⟩
  | str st => exact ⟨g, rfl⟩
  | arr xs => exact ⟨g, rfl⟩

theorem funcStep_ok {cid : Json} {g : GD} {f : Json}
    (h : isDict f = true → wfFunction f = true) :
    ∃ g₂, funcStep cid g f = .ok g₂ := by
  cases f with
  | obj fs =>
    have hw := h rfl
    rw [wfFunction, Bool.and_eq_true] at hw
    obtain ⟨hid, hspecs⟩ := hw
    obtain ⟨sxs, hsxs, hswf⟩ := childArr_of_wf hspecs
    simp only [funcStep]
    rw [hsxs]
    rw [addNode_ok_of_hash (getId_hash hid)]
    simp only [bind, Except.bind, pyIter]
    exact foldM_ok (fun gg x hx => specStep_ok (fun hdx => or_guard (hswf x hx) hdx)) _
  | null => exact ⟨g, rfl⟩
  | bool b => exact ⟨g, rfl⟩
  | num n => exact ⟨g, rfl⟩
  | str st => exact ⟨g, rfl⟩
  | arr xs => exact ⟨g, rfl⟩

theorem capStep_ok {sid : String} {g : GD} {c : Json}
    (h : isDict c = true → wfCapability c = true) :
    ∃ g₂, capStep sid g c = .ok g₂ := by
  cases c with
  | obj fs =>
    have hw := h rfl
    rw [wfCapability, Bool.and_eq_true] at hw
    obtain ⟨hid, hfuncs⟩ := hw
    obtain ⟨fxs, hfxs, hfwf⟩ := childArr_of_wf hfuncs
    simp only [capStep]
    rw [hfxs]
    rw [addNode_ok_of_hash (getId_hash hid)]
    simp only [bind, Except.bind, pyIter]
    exact foldM_ok (fun gg x hx => funcStep_ok (fun hdx => or_guard (hfwf x hx) hdx)) _
  | null => exact ⟨g, rfl⟩
  | bool b => exact ⟨g, rfl⟩
  | num n => exact ⟨g, rfl⟩
  | str st => exact ⟨g, rfl⟩
  | arr xs => exact ⟨g, rfl⟩

theorem subcompStep_ok {cid : String} {g : GD} {p : String × Json}
    (h : wfSubcomp p.2 = true) : ∃ g₂, subcompStep cid g p = .ok g₂ := by
  rw [wfSubcomp, Bool.and_eq_true] at h
  obtain ⟨hd, hcaps⟩ := h
  simp only [subcompStep]
  cases hc : extractCaps p.2 with
  | arr xs =>
    rw [hc] at hcaps
    have hcall : xs.all (fun c => !(isDict c) || wfCapability c) = true := by
      simpa using hcaps
    rw [addNode_ok_of_hash (show isHashable (Json.str p.1) = true from rfl)]
    simp only [bind, Except.bind, pyIter]
    exact foldM_ok
      (fun gg x hx => capStep_ok (fun hdx =>
        or_guard (List.all_eq_true.1 hcall x hx) hdx)) _
  | null => rw [hc] at hcaps; simp at hcaps
  | bool b => rw [hc] at hcaps; simp at hcaps
  | num n => rw [hc] at hcaps; simp at hcaps
  | str st => rw [hc] at hcaps; simp at hcaps
  | obj gs => rw [hc] at hcaps; simp at hcaps

theorem filterSubsFor_ok : ∀ (cid : String) (subs : List (String × Json)),
    (∀ q ∈ subs, isDict q.2 = true) →
    ∃ l, filterSubsFor cid subs = .ok l ∧ ∀ q ∈ l, q ∈ subs
  | _, [], _ => ⟨[], rfl, by simp⟩
  | cid, q :: rest, hh => by
    obtain ⟨l, hl, hs⟩ :=
      filterSubsFor_ok cid rest (fun x hx => hh x (List.mem_cons_of_mem _ hx))
    have hdq := hh q (by simp)
    cases hq2 : q.2 with
    | obj fs =>
      rw [filterSubsFor, hq2]
      simp only [pyContains, bind, Except.bind]
      by_cases hb : (fs.any (fun r => r.1 == "parent")) = true
      · rw [hb]
        have hsome := hasKey_isSome.1 hb
        cases hjp : jget? (Json.obj fs) "parent" with
        | some v =>
          simp only [if_true, pySubscript, hjp, bind, Except.bind]
          rw [hl]
          simp only [bind, Except.bind]
          refine ⟨if (v == Json.str cid) = true then q :: l else l, rfl, ?_⟩
          intro x hx
          split at hx
          · rcases List.mem_cons.1 hx with hx | hx
            · rw [hx]; simp
            · exact List.mem_cons_of_mem _ (hs x hx)
          · exact List.mem_cons_of_mem _ (hs x hx)
        | none =>
          rw [hjp] at hsome
          simp at hsome
      · rw [Bool.eq_false_iff.mpr hb]
        simp only [Bool.false_eq_true, if_false, bind, Except.bind]
        rw [hl]
        simp only [bind, Except.bind]
        exact ⟨l, rfl, fun x hx => List.mem_cons_of_mem _ (hs x hx)⟩
    | null => rw [hq2] at hdq; simp [isDict] at hdq
    | bool b => rw [hq2] at hdq; simp [isDict] at hdq
    | num n => rw [hq2] at hdq; simp [isDict] at hdq
    | str st => rw [hq2] at hdq; simp [isDict] at hdq
    | arr xs => rw [hq2] at hdq; simp [isDict] at hdq

theorem componentStep_ok {subs : List (String × Json)} {rootId : Json} {g : GD}
    {p : String × Json} (hc : isDict p.2 = true) (hn : (jget? p.2 "name").isSome = true)
    (hsubs : ∀ q ∈ subs, wfSubcomp q.2 = true) :
    ∃ g₂, componentStep subs rootId g p = .ok g₂ := by
  obtain ⟨l, hl, hs⟩ :=
    filterSubsFor_ok p.1 subs (fun q hq => wfSubcomp_isDict (hsubs q hq))
  simp only [componentStep]
  rw [hl]
  simp only [bind, Except.bind]
  cases hp2 : p.2 with
  | obj fs =>
    rw [hp2] at hn
    cases hj : jget? (Json.obj fs) "name" with
    | some v =>
      simp only [hp2, pySubscript, hj, bind, Except.bind]
      rw [addNode_ok_of_hash (show isHashable (Json.str p.1) = true from rfl)]
      simp only [bind, Except.bind]
      exact foldM_ok (fun gg x hx => subcompStep_ok (hsubs x (hs x hx))) _
    | none =>
      rw [hj] at hn
      simp at hn
  | null => rw [hp2] at hc; simp [isDict] at hc
  | bool b => rw [hp2] at hc; simp [isDict] at hc
  | num n => rw [hp2] at hc; simp [isDict] at hc
  | str st => rw [hp2] at hc; simp [isDict] at hc
  | arr xs => rw [hp2] at hc; simp [isDict] at hc

theorem build_graph_data_ok {root : Json} {comps subs : List (String × Json)}
    (h : wfDocs root comps subs = true) :
    ∃ gd, build_graph_data root comps subs = .ok gd := by
  rw [wfDocs, Bool.and_eq_true, Bool.and_eq_true] at h
  obtain ⟨⟨hr, hcs⟩, hss⟩ := h
  have hss' : ∀ q ∈ subs, wfSubcomp q.2 = true := by
    intro q hq
    exact List.all_eq_true.1 hss q hq
  have hcs' : ∀ q ∈ comps, (isDict q.2 && (jget? q.2 "name").isSome) = true := by
    intro q hq
    exact List.all_eq_true.1 hcs q hq
  cases hroot : root with
  | obj rfs =>
    rw [hroot] at hr
    rw [wfRoot, Bool.and_eq_true, Bool.and_eq_true] at hr
    obtain ⟨⟨hidh, hname⟩, hdesc⟩ := hr
    cases hjid : jget? (Json.obj rfs) "id" with
    | some rid =>
      rw [hjid] at hidh
      obtain ⟨rname, hjname⟩ := Option.isSome_iff_exists.1 hname
      obtain ⟨rdesc, hjdesc⟩ := Option.isSome_iff_exists.1 hdesc
      simp only [build_graph_data, pySubscript, hjid, hjname, hjdesc, bind, Except.bind]
      rw [addNode_ok_of_hash (show isHashable rid = true by simpa using hidh)]
      simp only [bind, Except.bind]
      refine foldM_ok (fun gg x hx => ?_) _
      have hx2 := hcs' x hx
      rw [Bool.and_eq_true] at hx2
      exact componentStep_ok hx2.1 hx2.2 hss'
    | none =>
      rw [hjid] at hidh
      simp at hidh
  | null => rw [hroot] at hr; exact Bool.noConfusion hr
  | bool b => rw [hroot] at hr; exact Bool.noConfusion hr
  | num n => rw [hroot] at hr; exact Bool.noConfusion hr
  | str st => rw [hroot] at hr; exact Bool.noConfusion hr
  | arr xs => rw [hroot] at hr; exact Bool.noConfusion hr

/-- A root document missing its `description` field. -/
def c6Root : Json := .obj [("id", .str "r"), ("name", .str "R")]

/-- CLAIM C6, counterexample. A root document without a `description` field
makes the build raise (`root_data["description"]`, app.py line 221) instead
of returning a node and edge list, contradicting the claim that no
object-shape violation aborts the build. -/
theorem claim_C6_counterexample :
    build_graph_data c6Root [] [] = .error "KeyError: description" := rfl

/-- CLAIM C6 as amended. The builder is a total function; any fragment that
is not an object is silently skipped at every fragment level (capability
through outputs, first conjunct), and the build succeeds on every
well-shaped document set (`wfDocs`: root with hashable id plus name and
description, components objects with name, subcomponents objects with
array-shaped child collections and hashable ids, second conjunct). However
a root or component document missing a required field aborts the build, as
the counterexample shows. -/
theorem claim_C6 :
    (∀ (g : GD) (j : Json), isDict j = false →
      (∀ sid : String, capStep sid g j = .ok g) ∧
      (∀ cid : Json, funcStep cid g j = .ok g) ∧
      (∀ fid : Json, specStep fid g j = .ok g) ∧
      (∀ iid : Json, techStep iid g j = .ok g) ∧
      (∀ tid : Json, appStep tid g j = .ok g) ∧
      (∀ aid : Json, inputStep aid g j = .ok g) ∧
      (∀ (aid : Json) (idx : Nat), outputStep aid g (idx, j) = .ok g)) ∧
    (∀ (root : Json) (comps subs : List (String × Json)),
      wfDocs root comps subs = true →
      ∃ gd, build_graph_data root comps subs = .ok gd) := by
  constructor
  · intro g j hd
    cases j with
    | obj fs => simp [isDict] at hd
    | null =>
      exact ⟨fun _ => rfl, fun _ => rfl, fun _ => rfl, fun _ => rfl, fun _ => rfl,
        fun _ => rfl, fun _ _ => rfl⟩
    | bool b =>
      exact ⟨fun _ => rfl, fun _ => rfl, fun _ => rfl, fun _ => rfl, fun _ => rfl,
        fun _ => rfl, fun _ _ => rfl⟩
    | num n =>
      exact ⟨fun _ => rfl, fun _ => rfl, fun _ => rfl, fun _ => rfl, fun _ => rfl,
        fun _ => rfl, fun _ _ => rfl⟩
    | str st =>
      exact ⟨fun _ => rfl, fun _ => rfl, fun _ => rfl, fun _ => rfl, fun _ => rfl,
        fun _ => rfl, fun _ _ => rfl⟩
    | arr xs =>
      exact ⟨fun _ => rfl, fun _ => rfl, fun _ => rfl, fun _ => rfl, fun _ => rfl,
        fun _ => rfl, fun _ _ => rfl⟩
  · intro root comps subs h
    exact build_graph_data_ok h

theorem claim_C6_witness :
    capStep "s" ⟨[], []⟩ (.num 3) = .ok ⟨[], []⟩ ∧
    (∃ gd, build_graph_data exRoot exComps exSubs = .ok gd) :=
  ⟨(claim_C6.1 ⟨[], []⟩ (.num 3) rfl).1 "s",
   claim_C6.2 exRoot exComps exSubs rfl⟩

/-- CLAIM C8. When the root document load fails (`none`: missing file, no
encoding yielding valid JSON, or empty content), `get_root_data` returns
the built-in default document, whose id is `ai-alignment` and whose
components list has exactly 4 entries. `get_root_data` is a total function
of the load outcome, so it never raises to its caller. -/
theorem claim_C8 :
    get_root_data none = DEFAULT_ROOT_DATA ∧
    jget? DEFAULT_ROOT_DATA "id" = some (.str "ai-alignment") ∧
    (match jget? DEFAULT_ROOT_DATA "components" with
     | some (.arr xs) => xs.length
     | _ => 0) = 4 :=
  ⟨rfl, rfl, rfl⟩

/-- CLAIM C10. In the concrete document set, the output `o2` appears only
nested inside the input fragment's `outputs`; the builder emits a node with
id `o2`, yet the resolver reports it not found with a 404, because the
nested search only inspects each application's own `inputs` and `outputs`
arrays. Hence not every node id of the built graph is resolvable. -/
theorem claim_C10 :
    build_graph_data exRoot exComps exSubs = .ok exGD ∧
    memB (.str "o2") (ids exGD.nodes) = true ∧
    (exGD.nodes.filter (fun n => n.id == Json.str "o2")).map (fun n => n.type)
      = ["output"] ∧
    get_node_details "o2" exRoot exComps exSubs = .ok (notFoundDoc "o2", 404) :=
  ⟨rfl, rfl, rfl, rfl⟩

def c7Root : Json := .obj [("id", .str "root-id"), ("name", .str "R")]

def c7CompDoc : Json := .obj [("name", .str "the component document")]

def c7SubDoc : Json := .obj [("name", .str "the subcomponent document")]

/-- CLAIM C7, counterexample. When a nodeId is a key of both the components
mapping and the subcomponents mapping, the resolver returns the component
document, not the subcomponent document, because the component check of
node_details_helper.py line 256 precedes the subcomponent check of line
261; so not every nodeId that is a key of the subcomponents mapping
resolves to its subcomponent document. -/
theorem claim_C7_counterexample :
    get_node_details "x" c7Root [("x", c7CompDoc)] [("x", c7SubDoc)]
      = .ok (c7CompDoc, 200) ∧ c7CompDoc ≠ c7SubDoc :=
  ⟨rfl, ne_of_beq_false rfl⟩

/-- CLAIM C7 as amended. For every nodeId that is a key of the
subcomponents mapping with an object value, provided the nodeId is not
`"ai-alignment"`, not the root document's own id, and not a key of the
components mapping, the resolver returns that subcomponent document
verbatim with status 200 - whatever the capability trees contain, so the
nested search is never consulted even when a deeper fragment carries the
same id. -/
theorem claim_C7 (nid : String) (root : Json) (comps subs : List (String × Json))
    (v : Json) (hroot : pyTruthy root = true) (hnotai : nid ≠ "ai-alignment")
    (hrid : ∃ rv, pySubscript root "id" = .ok rv ∧ (rv == Json.str nid) = false)
    (hcomp : alookup comps nid = none)
    (hsub : alookup subs nid = some v)
    (hdict : isDict v = true) :
    get_node_details nid root comps subs = .ok (v, 200) := by
  obtain ⟨rv, hrv, hne⟩ := hrid
  have hai : (nid == "ai-alignment") = false := beq_eq_false_iff_ne.mpr hnotai
  simp [get_node_details, hroot, hai, hrv, hne, hcomp, hsub, hdict, bind, Except.bind]

theorem claim_C7_witness :
    get_node_details "s1" exRoot exComps exSubs = .ok (exSubcomp, 200) :=
  claim_C7 "s1" exRoot exComps exSubs exSubcomp rfl (by decide)
    ⟨.str "ai-alignment", rfl, rfl⟩ rfl rfl rfl

def c9Good : Json := .obj [("id", .str "a"), ("name", .str "A")]

def c9Files : List (String × Option Json) := [("a", some c9Good), ("b", some (.arr [.num 1]))]

/-- CLAIM C9, counterexample. A file that parses to a truthy top-level
array with no `"id"` element makes the filename-id injection raise
`TypeError`; the helper batch loader propagates the error and the app-level
loader catches it and returns an empty mapping, so the successfully parsed
file `a` loses its entry - it is not the case that one bad file leaves the
other files' entries intact. Loading `a` alone does produce its entry. -/
theorem claim_C9_counterexample :
    get_subcomponents_app c9Files = [] ∧
    (∃ e, get_subcomponents c9Files = .error e) ∧
    get_subcomponents_app [("a", some c9Good)] = [("a", c9Good)] :=
  ⟨rfl, ⟨_, rfl⟩, rfl⟩

/-- The entry contributed by one subcomponent file when its load outcome is
benign: failed or falsy loads contribute nothing, objects get the filename
id injected when missing. -/
def subcompEntry (p : String × Option Json) : Option (String × Json) :=
  match p.2 with
  | some j =>
    if pyTruthy j then
      some (p.1,
        match j with
        | .obj fs =>
          if fs.any (fun q => q.1 == "id") then .obj fs
          else .obj (fs ++ [("id", .str p.1)])
        | _ => j)
    else none
  | none => none

/-- A file outcome on which the id injection cannot raise: load failure,
falsy document, or an object. -/
def fileOkJ (p : String × Option Json) : Bool :=
  match p.2 with
  | none => true
  | some j => !pyTruthy j || isDict j

/-- CLAIM C9 as amended. When every file's outcome is a load failure, a
falsy document or an object document, the subcomponent batch loaders
(helper and app variants) return exactly one entry per successfully parsed
truthy file, with the filename id injected when missing; in particular a
file that fails to parse is skipped and does not affect the other files'
entries. (Without that proviso a single array-valued file destroys the
whole batch, as the counterexample shows.) -/
theorem claim_C9 : ∀ (files : List (String × Option Json)),
    files.all fileOkJ = true →
    get_subcomponents files = .ok (files.filterMap subcompEntry) ∧
    get_subcomponents_app files = files.filterMap subcompEntry := by
  intro files
  induction files with
  | nil =>
    intro _
    exact ⟨rfl, rfl⟩
  | cons p rest ih =>
    intro h
    rw [List.all_cons, Bool.and_eq_true] at h
    obtain ⟨hp, hrest⟩ := h
    obtain ⟨ihh, -⟩ := ih hrest
    obtain ⟨fid, r⟩ := p
    have happ : ∀ hres, get_subcomponents ((fid, r) :: rest) = .ok hres →
        get_subcomponents_app ((fid, r) :: rest) = hres := by
      intro hres he
      unfold get_subcomponents_app
      rw [he]
    cases r with
    | none =>
      have h1 : get_subcomponents ((fid, none) :: rest)
          = .ok (rest.filterMap subcompEntry) := by
        rw [get_subcomponents, ihh]
      have h2 : ((fid, none) :: rest).filterMap subcompEntry
          = rest.filterMap subcompEntry := by
        rw [List.filterMap_cons]
        rfl
      rw [h2]
      exact ⟨h1, happ _ h1⟩
    | some j =>
      by_cases ht : pyTruthy j = true
      · have hd : isDict j = true := by
          unfold fileOkJ at hp
          exact or_guard (by simpa using hp) ht
        cases j with
        | obj fs =>
          have hinj : injectId fid (Json.obj fs)
              = .ok (if fs.any (fun q => q.1 == "id") then Json.obj fs
                     else Json.obj (fs ++ [("id", .str fid)])) := by
            unfold injectId
            simp only [pyContains, bind, Except.bind]
            by_cases hk : (fs.any (fun q => q.1 == "id")) = true
            · rw [hk]
              rfl
            · rw [Bool.eq_false_iff.mpr hk]
              rfl
          have h1 : get_subcomponents ((fid, some (Json.obj fs)) :: rest)
              = .ok ((fid,
                  if fs.any (fun q => q.1 == "id") then Json.obj fs
                  else Json.obj (fs ++ [("id", .str fid)])) ::
                  rest.filterMap subcompEntry) := by
            rw [get_subcomponents, if_pos ht, hinj]
            simp only [bind, Except.bind]
            rw [ihh]
          have h2 : ((fid, some (Json.obj fs)) :: rest).filterMap subcompEntry
              = (fid,
                  if fs.any (fun q => q.1 == "id") then Json.obj fs
                  else Json.obj (fs ++ [("id", .str fid)])) ::
                  rest.filterMap subcompEntry := by
            rw [List.filterMap_cons]
            simp [subcompEntry, ht]
          rw [h2]
          exact ⟨h1, happ _ h1⟩
        | null => exact Bool.noConfusion ht
        | bool b => exact Bool.noConfusion hd
        | num n => exact Bool.noConfusion hd
        | str st => exact Bool.noConfusion hd
        | arr xs => exact Bool.noConfusion hd
      · have htf : pyTruthy j = false := Bool.eq_false_iff.mpr ht
        have h1 : get_subcomponents ((fid, some j) :: rest)
            = .ok (rest.filterMap subcompEntry) := by
          rw [get_subcomponents, htf]
          simp only [Bool.false_eq_true, if_false]
          exact ihh
        have h2 : ((fid, some j) :: rest).filterMap subcompEntry
            = rest.filterMap subcompEntry := by
          rw [List.filterMap_cons]
          simp [subcompEntry, htf]
        rw [h2]
        exact ⟨h1, happ _ h1⟩

def c9wFiles : List (String × Option Json) :=
  [("a", some c9Good), ("bad", none), ("c", some (.obj [("x", .num 1)]))]

theorem claim_C9_witness :
    get_subcomponents c9wFiles = .ok (c9wFiles.filterMap subcompEntry) ∧
    get_subcomponents_app c9wFiles = c9wFiles.filterMap subcompEntry :=
  claim_C9 c9wFiles rfl

end Visualization
